import Mathlib

/-!
Verification of the financial-dashboard normalization pipeline (`app.py`).

The development shallowly embeds the core of `load_data` and the module-level
final normalization pass:
  * cell values are modelled by `Cell` (missing → `null`, text, decimal
    numbers, datetimes); Python/pandas floats are modelled as exact decimals
    `Dec10` (mantissa / 10^exponent);
  * a pandas DataFrame is modelled as an ordered list of named columns
    (`Table`);
  * the pandas library functions the source calls are modelled on the
    fragment of inputs this program can feed them:
    `Series.str.lower/replace` chains (`stripAmount`), `pd.to_numeric(...,
    errors='coerce')` (`toNumericDec`, covering signed decimal numerals;
    scientific/infinity spellings are out of the modelled fragment),
    `pd.to_datetime` (`cellToDatetime`, covering ISO `YYYY-MM-DD` cells,
    missing cells → NaT, other text → raise), `DataFrame.rename`,
    column read/assignment, and `Series.apply`;
  * fatal pandas exceptions (`KeyError`, `ValueError`, `IndexError`) are
    modelled with `Except`.
-/

namespace FinDash

/-- Python `str.lower` restricted to the characters that can influence this
program's substring tests: ASCII letters and the Norwegian letters appearing
in the categorizer keywords. Other characters are left unchanged (they can
neither create nor destroy a match of the ASCII/`ø` keywords used here). -/
def pyLowerChar (c : Char) : Char :=
  if 'A' ≤ c ∧ c ≤ 'Z' then Char.ofNat (c.toNat + 32)
  else if c = 'Ø' then 'ø'
  else if c = 'Å' then 'å'
  else if c = 'Æ' then 'æ'
  else c

def pyLower (s : String) : String := String.mk (s.data.map pyLowerChar)

/-- `begMatch p s` holds when pattern `p` starts the character list `s`. -/
def begMatch : List Char → List Char → Bool
  | [], _ => true
  | _ :: _, [] => false
  | a :: p, b :: s => a == b && begMatch p s

/-- Substring occurrence test (Python's `in` on strings). -/
def subMatch (p : List Char) : List Char → Bool
  | [] => begMatch p []
  | c :: s => begMatch p (c :: s) || subMatch p s

def containsS (s pat : String) : Bool := subMatch pat.data s.data

/-- `Series.str.replace(x, '')` for a one-character pattern. -/
def removeChar (x : Char) : List Char → List Char
  | [] => []
  | c :: s => if c = x then removeChar x s else c :: removeChar x s

/-- `Series.str.replace('kr', '')`: left-to-right, non-overlapping removal. -/
def removeKr : List Char → List Char
  | [] => []
  | [c] => [c]
  | a :: b :: s => if a = 'k' ∧ b = 'r' then removeKr s else a :: removeKr (b :: s)

/-- The cleaning chain of `app.py` line 42 (and line 97):
`.str.lower().str.replace(',','').str.replace('$','').str.replace('kr','').str.replace(' ','')`. -/
def stripAmount (s : String) : String :=
  String.mk (removeChar ' ' (removeKr (removeChar '$' (removeChar ',' ((pyLower s).data)))))

/-- Exact decimal number: value `m / 10 ^ e`. Models the Python floats this
program produces and consumes (all arise from decimal text). -/
structure Dec10 where
  m : Int
  e : Nat
deriving DecidableEq, Repr

def Dec10.val (d : Dec10) : ℚ := (d.m : ℚ) / (10 : ℚ) ^ d.e

/-- Subtraction of decimals (used for the credit − debit netting). -/
def Dec10.sub (a b : Dec10) : Dec10 :=
  ⟨a.m * (10 : Int) ^ b.e - b.m * (10 : Int) ^ a.e, a.e + b.e⟩

/-- An absolute datetime as produced by `pd.to_datetime`: either a parsed
calendar date or a numeric epoch offset (for numeric input cells). -/
inductive DateVal
  | ymd (y m d : Nat)
  | epochNs (v : Dec10)
deriving DecidableEq, Repr

/-- One DataFrame cell. `null` models NaN/None (a missing CSV field). -/
inductive Cell
  | null
  | str (s : String)
  | num (d : Dec10)
  | date (v : DateVal)
deriving DecidableEq, Repr

def isDigitC (c : Char) : Bool := '0' ≤ c && c ≤ '9'

def digitVal (c : Char) : Nat := c.toNat - 48

/-- Value of a big-endian digit-character list. -/
def digitsToNat (cs : List Char) : Nat := cs.foldl (fun a c => 10 * a + digitVal c) 0

def digitChar10 (d : Nat) : Char := Char.ofNat (48 + d)

/-- Little-endian digit characters of `n`, with fuel for structural recursion. -/
def natCharsAux : Nat → Nat → List Char
  | 0, _ => []
  | _ + 1, 0 => []
  | fuel + 1, n + 1 => digitChar10 ((n + 1) % 10) :: natCharsAux fuel ((n + 1) / 10)

/-- Standard base-10 rendering of a natural number. -/
def natChars (n : Nat) : List Char := if n = 0 then ['0'] else (natCharsAux n n).reverse

def padZeros (e : Nat) (cs : List Char) : List Char :=
  List.replicate (e - cs.length) '0' ++ cs

/-- Python `str()` of a decimal number (e.g. `str(120.5) = "120.5"`,
`str(-45.0) = "-45.0"`, integers without a fractional part). -/
def renderDec (d : Dec10) : String :=
  let n := d.m.natAbs
  let signPart : List Char := if d.m < 0 then ['-'] else []
  if d.e = 0 then String.mk (signPart ++ natChars n)
  else String.mk (signPart ++ natChars (n / 10 ^ d.e) ++
        '.' :: padZeros d.e (natChars (n % 10 ^ d.e)))

/-- Unsigned part of the numeric parser of `pd.to_numeric`:
digits with an optional single `'.'` (at least one digit overall). -/
def parseUDec (neg : Bool) (cs : List Char) : Option Dec10 :=
  let ip := cs.takeWhile isDigitC
  let rest := cs.dropWhile isDigitC
  let sgn : Int := if neg then -1 else 1
  if rest.isEmpty then
    if ip.isEmpty then none else some ⟨sgn * (digitsToNat ip : Int), 0⟩
  else if rest.head? = some '.' then
    let fp := rest.tail
    if fp.all isDigitC && !(ip.isEmpty && fp.isEmpty) then
      some ⟨sgn * ((digitsToNat ip : Int) * (10 : Int) ^ fp.length + (digitsToNat fp : Int)),
            fp.length⟩
    else none
  else none

/-- Mantissa of the numeric parser of `pd.to_numeric`: an optional single
sign, then an unsigned decimal. -/
def parseNumM (cs : List Char) : Option Dec10 :=
  match cs with
  | [] => none
  | c :: r =>
      if c = '-' then parseUDec true r
      else if c = '+' then parseUDec false r
      else parseUDec false (c :: r)

/-- Exponent suffix after the `e` marker: an optional single sign, then at
least one digit; its signed integer value. -/
def parseExp (cs : List Char) : Option Int :=
  match cs with
  | [] => none
  | c :: r =>
      if c = '-' then
        if r.isEmpty || !r.all isDigitC then none else some (-(digitsToNat r : Int))
      else if c = '+' then
        if r.isEmpty || !r.all isDigitC then none else some ((digitsToNat r : Int))
      else if (c :: r).all isDigitC then some ((digitsToNat (c :: r) : Int)) else none

/-- Scale an exact decimal by `10 ^ k` (exactly; the scaled value). -/
def Dec10.scale (d : Dec10) (k : Int) : Dec10 :=
  if 0 ≤ k then ⟨d.m * (10 : Int) ^ k.toNat, d.e⟩ else ⟨d.m, d.e + (-k).toNat⟩

/-- `pd.to_numeric(x, errors='coerce')` on a single text cell (`none` = NaN):
a signed decimal with an optional scientific-notation exponent, split at the
first `e` (every string this program feeds `to_numeric` has been lowercased
by the cleaning chain of lines 42/97 first, so only a lowercase `e` can mark
an exponent). The infinity spellings `to_numeric` also accepts produce IEEE
infinities, which the exact-decimal `Dec10` does not represent; no theorem
below asserts the normalizer's output on such inputs. -/
def parseNum (s : String) : Option Dec10 :=
  match s.data.dropWhile (fun c => c ≠ 'e') with
  | [] => parseNumM s.data
  | _ :: ex =>
      match parseNumM (s.data.takeWhile (fun c => c ≠ 'e')), parseExp ex with
      | some d, some k => some (d.scale k)
      | _, _ => none

/-- Python `str()` of a cell; `astype(str)` maps NaN to `"nan"`.
(The `date` cases cannot reach a `str()` call in this program: `read_csv`
never yields datetime cells and the pipeline only creates them in the final
`Date` column.) -/
def pyStr : Cell → String
  | .null => "nan"
  | .str s => s
  | .num d => renderDec d
  | .date (.ymd y m d) =>
      String.mk (natChars y ++ '-' :: padZeros 2 (natChars m) ++ '-' :: padZeros 2 (natChars d))
  | .date (.epochNs v) => renderDec v

/-- `pd.to_numeric(..., errors='coerce')` on one cell (numbers pass through;
datetime cells never reach an Amount column in this program). -/
def toNumericDec : Cell → Option Dec10
  | .null => none
  | .num d => some d
  | .str s => parseNum s
  | .date _ => none

/-- The `clean` lambda of `app.py` line 42 on one cell:
`astype(str)` then the lower/replace chain. -/
def cleanCellStr (c : Cell) : Cell := .str (stripAmount (pyStr c))

def cleanCol (col : List Cell) : List Cell := col.map cleanCellStr

def toNumericCol (col : List Cell) : List Cell :=
  col.map (fun c => match toNumericDec c with | some d => .num d | none => .null)

def fillna0 (col : List Cell) : List Cell :=
  col.map (fun c => match c with | .null => .num ⟨0, 0⟩ | c => c)

/-- The Numeric Normalizer on a single cell: clean, coerce, default 0. -/
def numNormD (c : Cell) : Dec10 := (toNumericDec (cleanCellStr c)).getD ⟨0, 0⟩

/-- Value of the Numeric Normalizer on a single cell. -/
def cellNN (c : Cell) : ℚ := (numNormD c).val

/-- `any(x in desc for x in kws)`. -/
def anyKw (kws : List String) (d : String) : Bool := kws.any (fun k => containsS d k)

/-- `categorize` of `app.py` lines 61–72 (applied to a raw cell:
`str(desc).lower()` then the keyword cascade). -/
def categorize (x : Cell) : String :=
  let d := pyLower (pyStr x)
  if containsS d "kontoregulering" && containsS d "mobil overføring" then "Savings 🏦"
  else if anyKw ["meny", "rema", "kiwi", "bunnpris", "coop", "joker", "dagligvare", "extra", "spar"] d then
    "Groceries 🛒"
  else if anyKw ["mcd", "burger", "sushi", "pizza", "restaurant", "cafe", "starbucks", "boba", "thai", "vaffel", "bakeri", "espresso", "tea"] d then
    "Food & Dining 🍔"
  else if anyKw ["ruter", "vipps:ruter", "vy", "flytoget", "uber", "taxi", "bolt", "parkering", "easypark", "apcoa", "voi", "ryde", "dott", "buss"] d then
    "Transport 🚆"
  else if anyKw ["netflix", "hbo", "spotify", "kino", "steam", "playstation", "bio", "disney"] d then
    "Entertainment 🎬"
  else if anyKw ["telia", "telenor", "nte", "strøm", "leie", "husleie", "forsikring", "tryg"] d then
    "Bills & Utilities 💡"
  else if anyKw ["klarna", "hm", "zara", "elkjøp", "power", "ikea", "clas ohlson", "normal", "apotek", "vitus", "blomster"] d then
    "Shopping 🛍️"
  else if anyKw ["lønn", "salary", "deposit", "overføring innland", "vipps", "straksoverføring"] d then
    "Income/Transfer 💰"
  else "Other"

/-! ## DataFrame model and the pipeline stages of `load_data` -/

/-- A DataFrame: ordered list of named columns. (`read_csv` produces
rectangular tables with de-duplicated header names; nothing below assumes
either property unless stated.) -/
abbrev Table := List (String × List Cell)

/-- Fatal pandas exceptions the source can raise. -/
inductive PErr
  | keyError (k : String)
  | valueError
  | indexError
deriving DecidableEq, Repr

def names (t : Table) : List String := t.map Prod.fst

/-- `df[n]` (first column of that name), `none` = would raise `KeyError`. -/
def getCol (n : String) : Table → Option (List Cell)
  | [] => none
  | (m, v) :: t => if m = n then some v else getCol n t

def getColD (n : String) (t : Table) : List Cell := (getCol n t).getD []

/-- `df[n] = v`: replace the first column named `n`, else append it. -/
def setCol (n : String) (v : List Cell) : Table → Table
  | [] => [(n, v)]
  | (m, w) :: t => if m = n then (n, v) :: t else (m, w) :: setCol n v t

/-- Apply a rename mapping (Python dict as assoc list) to one column name. -/
def applyRen (m : List (String × String)) (n : String) : String :=
  ((m.find? (fun p => p.1 == n)).map Prod.snd).getD n

/-- `df.rename(columns=...)`: every matching column is renamed. -/
def rename (m : List (String × String)) (t : Table) : Table :=
  t.map (fun c => (applyRen m c.1, c.2))

/-- `'date' in c.lower() or 'time' in c.lower()` (line 24). -/
def isDateName (n : String) : Bool :=
  containsS (pyLower n) "date" || containsS (pyLower n) "time"

/-- `'desc' in c.lower() or 'merchant' in c.lower() or 'name' in c.lower()` (line 27). -/
def isDescName (n : String) : Bool :=
  containsS (pyLower n) "desc" || containsS (pyLower n) "merchant" || containsS (pyLower n) "name"

/-- `'receive' in c.lower() or 'credit' in c.lower() or 'deposit' in c.lower()` (line 33). -/
def isReceiveName (n : String) : Bool :=
  containsS (pyLower n) "receive" || containsS (pyLower n) "credit" || containsS (pyLower n) "deposit"

/-- `c.lower() in ['amount', 'debit', 'withdraw', 'payment']` (line 34): exact match. -/
def isAmountName (n : String) : Bool :=
  pyLower n == "amount" || pyLower n == "debit" || pyLower n == "withdraw" || pyLower n == "payment"

/-- `'cat' in c.lower()` (line 57). -/
def isCatName (n : String) : Bool := containsS (pyLower n) "cat"

/-- Line 24: `next((c for c in df.columns if ...), df.columns[0])`. -/
def dateColOf (ns : List String) : Option String := (ns.find? isDateName) <|> ns.head?

/-- Line 27: fallback `df.columns[2] if len(df.columns) > 2 else None`;
`ns[2]?` is exactly that conditional. -/
def descColOf (ns : List String) : Option String := (ns.find? isDescName) <|> ns[2]?

/-- The dict `{date_col: 'Date', desc_col: 'Description'}` of line 30.
When both roles picked the same column the later dict entry wins; a `None`
description key renames nothing. -/
def renMap (dc : String) (desc : Option String) : List (String × String) :=
  match desc with
  | none => [(dc, "Date")]
  | some d => if d = dc then [(d, "Description")] else [(dc, "Date"), (d, "Description")]

/-- Line 30 applied to the table. -/
def basicRenamed (df : Table) : Table :=
  match dateColOf (names df) with
  | none => df
  | some dc => rename (renMap dc (descColOf (names df))) df

/-- Line 33, evaluated (as in the source) on the renamed table. -/
def receiveColOf (df : Table) : Option String :=
  (names (basicRenamed df)).find? isReceiveName

/-- Line 34, evaluated (as in the source) on the renamed table. -/
def amountColOf (df : Table) : Option String :=
  (names (basicRenamed df)).find? isAmountName

/-- The Numeric-Normalizer column transform of lines 44–45:
`pd.to_numeric(clean(col), errors='coerce').fillna(0)`. -/
def nnCol (col : List Cell) : List Cell := fillna0 (toNumericCol (cleanCol col))

/-- `df[receive_col] - df[amount_col]` cell-wise. -/
def cellSub : Cell → Cell → Cell
  | .num a, .num b => .num (a.sub b)
  | _, _ => .null

/-- Lines 36–53: dual-column netting when both roles resolve, else the
single-column fallback rename. -/
def amountStaged (df : Table) : Table :=
  let t1 := basicRenamed df
  match receiveColOf df, amountColOf df with
  | some r, some a =>
      let t2 := setCol r (nnCol (getColD r t1)) t1
      let t3 := setCol a (nnCol (getColD a t1)) t2
      setCol "Amount" (List.zipWith cellSub (getColD r t3) (getColD a t3)) t3
  | rc, ac =>
      match (match rc, ac with | _, some a => some a | _, none => (names t1)[1]?) with
      | some tgt => rename [(tgt, "Amount")] t1
      | none => t1

/-- Line 57, evaluated (as in the source) after the amount stage. -/
def catColOf (df : Table) : Option String :=
  (names (amountStaged df)).find? isCatName

/-- Lines 56–74: rename an existing category-like column, else generate
`Category` by applying `categorize` to `df['Description']` (raising
`KeyError` when that column does not exist). -/
def catStage (t2 : Table) (cc : Option String) : Except PErr Table :=
  match cc with
  | some c => .ok (rename [(c, "Category")] t2)
  | none =>
      match getCol "Description" t2 with
      | none => .error (.keyError "Description")
      | some dv => .ok (setCol "Category" (dv.map (fun x => Cell.str (categorize x))) t2)

/-- Lines 21–76 of `load_data` for a present input table. The `next(...)`
call of line 24 evaluates its default `df.columns[0]` eagerly, so an empty
column list raises `IndexError`. -/
def normalizeTable (df : Table) : Except PErr Table :=
  match names df with
  | [] => .error .indexError
  | _ :: _ => catStage (amountStaged df) (catColOf df)

/-- Lines 79–85: the built-in sample data. -/
def sampleTable : Table :=
  [("Date", [.str "2023-12-01", .str "2023-12-02", .str "2023-12-05",
             .str "2023-12-08", .str "2023-12-10"]),
   ("Description", [.str "Grocery Store", .str "Salary", .str "Netflix",
                    .str "Gas Station", .str "Restaurant"]),
   ("Category", [.str "Groceries 🛒", .str "Income 💰", .str "Entertainment 🎬",
                 .str "Transport 🚆", .str "Food & Dining 🍔"]),
   ("Amount", [.num ⟨-150, 0⟩, .num ⟨3000, 0⟩, .num ⟨-15, 0⟩,
               .num ⟨-45, 0⟩, .num ⟨-60, 0⟩])]

/-- `load_data(uploaded_file)`: uploaded table, else the local
`statement.csv` (absence is swallowed), else the sample data. -/
def loadData (upload localFile : Option Table) : Except PErr Table :=
  match upload <|> localFile with
  | some df => normalizeTable df
  | none => .ok sampleTable

/-- ISO `YYYY-MM-DD` fragment of the `pd.to_datetime` cell parser. -/
def parseDateChars : List Char → Option DateVal
  | [a, b, c, d, '-', e, f, '-', g, h] =>
      if [a, b, c, d, e, f, g, h].all isDigitC then
        let y := digitsToNat [a, b, c, d]
        let mo := digitsToNat [e, f]
        let da := digitsToNat [g, h]
        if 1 ≤ mo && mo ≤ 12 && 1 ≤ da && da ≤ 31 then some (.ymd y mo da) else none
      else none
  | _ => none

/-- `pd.to_datetime` on one cell: datetimes and NaN/empty pass to themselves
resp. NaT, numbers become epoch offsets, parseable text becomes a date, and
unparseable text raises (`errors='raise'` is the pandas default). -/
def cellToDatetime : Cell → Except PErr Cell
  | .null => .ok .null
  | .date v => .ok (.date v)
  | .num d => .ok (.date (.epochNs d))
  | .str s =>
      match s.data with
      | [] => .ok .null
      | cs => match parseDateChars cs with
              | some v => .ok (.date v)
              | none => .error .valueError

def toDatetimeCol : List Cell → Except PErr (List Cell)
  | [] => .ok []
  | c :: cs => do
      let c' ← cellToDatetime c
      let cs' ← toDatetimeCol cs
      .ok (c' :: cs')

/-- `df['Amount'].dtype == 'object'`: a CSV-derived column is object-typed
exactly when it holds text cells. -/
def isObjectCol (col : List Cell) : Bool :=
  col.any (fun c => match c with | .str _ => true | _ => false)

/-- The module-level final normalization pass, lines 93–98:
`df['Date'] = pd.to_datetime(df['Date'])`, clean `Amount` if still textual,
then `pd.to_numeric(..., errors='coerce').fillna(0)`. A missing `Date` or
`Amount` column raises `KeyError`. -/
def finalPass (t : Table) : Except PErr Table :=
  match getCol "Date" t with
  | none => .error (.keyError "Date")
  | some dv =>
      match toDatetimeCol dv with
      | .error e => .error e
      | .ok nd =>
          let t1 := setCol "Date" nd t
          match getCol "Amount" t1 with
          | none => .error (.keyError "Amount")
          | some av =>
              let av1 := if isObjectCol av then cleanCol av else av
              .ok (setCol "Amount" (fillna0 (toNumericCol av1)) t1)

/-- The whole raw-input → canonical-ledger pipeline as the presentation layer
sees it: `load_data` followed by the final normalization pass. -/
def pipeline (upload localFile : Option Table) : Except PErr Table :=
  loadData upload localFile >>= finalPass

instance {ε α : Type} [DecidableEq ε] [DecidableEq α] : DecidableEq (Except ε α) := fun
  | .error e, .error f =>
      match decEq e f with
      | isTrue h => isTrue (by rw [h])
      | isFalse h => isFalse (fun hh => h (by cases hh; rfl))
  | .error _, .ok _ => isFalse (fun hh => by cases hh)
  | .ok _, .error _ => isFalse (fun hh => by cases hh)
  | .ok t, .ok u =>
      match decEq t u with
      | isTrue h => isTrue (by rw [h])
      | isFalse h => isFalse (fun hh => h (by cases hh; rfl))

/-- Column names of a pipeline outcome (`none` when it raised). -/
def namesOf? (e : Except PErr Table) : Option (List String) := e.toOption.map names

/-- A named column of a pipeline outcome. -/
def colIn? (n : String) (e : Except PErr Table) : Option (List Cell) :=
  e.toOption.bind (getCol n)

/-- Numeric value of a cell (0 for anything non-numeric); used to state
row sums. -/
def cellVal : Cell → ℚ
  | .num d => d.val
  | _ => 0

/-! ## Spec-side reference definitions (stated from the specification's /
claims' wording, to be compared with the code-side definitions above) -/

/-- A ColumnRoleMap (spec §3). -/
structure RoleMap where
  date : Option String
  desc : Option String
  credit : Option String
  debit : Option String
  category : Option String
deriving DecidableEq, Repr

/-- The role map the code actually computes (the five `next(...)` searches
of `load_data`, each on the table state at its point in the program). -/
def codeRoleMap (df : Table) : RoleMap :=
  ⟨dateColOf (names df), descColOf (names df), receiveColOf df, amountColOf df, catColOf df⟩

/-- Claim C4's reference role map: every role evaluated independently, by
first-match over the table's **original** column names. -/
def specRoleMap (df : Table) : RoleMap :=
  let ns := names df
  ⟨(ns.find? isDateName) <|> ns.head?,
   (ns.find? isDescName) <|> ns[2]?,
   ns.find? isReceiveName,
   ns.find? isAmountName,
   ns.find? isCatName⟩

/-- Amended C4, spec side: column names after the date/description rename,
described as a direct substitution on the original name list (description
entry overrides on a collision, mirroring the Python dict). -/
def seqNames1 (ns : List String) : List String :=
  match (ns.find? isDateName) <|> ns.head? with
  | none => ns
  | some dc =>
      ns.map (fun n =>
        if ((ns.find? isDescName) <|> ns[2]?) = some n then "Description"
        else if n = dc then "Date" else n)

/-- Amended C4, spec side: column names after the amount stage (dual path
appends `Amount` if absent; single path renames the fallback target). -/
def seqNames2 (ns : List String) : List String :=
  let n1 := seqNames1 ns
  match n1.find? isReceiveName, n1.find? isAmountName with
  | some _, some _ => if "Amount" ∈ n1 then n1 else n1 ++ ["Amount"]
  | _, ac =>
      match ac <|> n1[1]? with
      | some tgt => n1.map (fun n => if n = tgt then "Amount" else n)
      | none => n1

/-- Amended C4, spec side: roles evaluated sequentially — date/description
over the original names, credit/debit over the renamed names, category over
the names after the amount stage. -/
def seqRoleMap (ns : List String) : RoleMap :=
  ⟨(ns.find? isDateName) <|> ns.head?,
   (ns.find? isDescName) <|> ns[2]?,
   (seqNames1 ns).find? isReceiveName,
   (seqNames1 ns).find? isAmountName,
   (seqNames2 ns).find? isCatName⟩

/-- A category rule: keyword test over the lowercased description, label. -/
structure CatRule where
  test : String → Bool
  label : String

/-- The ordered rule list of spec §4.4 (first match wins; the Savings rule
is the compound two-token test). -/
def catRules : List CatRule :=
  [⟨fun d => containsS d "kontoregulering" && containsS d "mobil overføring", "Savings 🏦"⟩,
   ⟨anyKw ["meny", "rema", "kiwi", "bunnpris", "coop", "joker", "dagligvare", "extra", "spar"], "Groceries 🛒"⟩,
   ⟨anyKw ["mcd", "burger", "sushi", "pizza", "restaurant", "cafe", "starbucks", "boba", "thai", "vaffel", "bakeri", "espresso", "tea"], "Food & Dining 🍔"⟩,
   ⟨anyKw ["ruter", "vipps:ruter", "vy", "flytoget", "uber", "taxi", "bolt", "parkering", "easypark", "apcoa", "voi", "ryde", "dott", "buss"], "Transport 🚆"⟩,
   ⟨anyKw ["netflix", "hbo", "spotify", "kino", "steam", "playstation", "bio", "disney"], "Entertainment 🎬"⟩,
   ⟨anyKw ["telia", "telenor", "nte", "strøm", "leie", "husleie", "forsikring", "tryg"], "Bills & Utilities 💡"⟩,
   ⟨anyKw ["klarna", "hm", "zara", "elkjøp", "power", "ikea", "clas ohlson", "normal", "apotek", "vitus", "blomster"], "Shopping 🛍️"⟩,
   ⟨anyKw ["lønn", "salary", "deposit", "overføring innland", "vipps", "straksoverføring"], "Income/Transfer 💰"⟩]

/-- Label of the first matching rule, default `"Other"`. -/
def firstMatchLabel (rs : List CatRule) (d : String) : String :=
  ((rs.find? (fun r => r.test d)).map CatRule.label).getD "Other"

/-- Spec-side decimal-numeral grammar (claim C3): digit/dot characters, at
most one dot, at least one digit. -/
def isUDecimal (cs : List Char) : Bool :=
  !cs.isEmpty && cs.all (fun c => isDigitC c || c = '.') && cs.count '.' ≤ 1 && cs.any isDigitC

/-- Claim C3's literal grammar: optional leading **minus** only. -/
def isMinusDecimal (cs : List Char) : Bool :=
  match cs with
  | [] => false
  | c :: r => if c = '-' then isUDecimal r else isUDecimal (c :: r)

/-- Amended grammar: optional leading minus or plus. -/
def isSignedDecimal (cs : List Char) : Bool :=
  match cs with
  | [] => false
  | c :: r =>
      if c = '-' then isUDecimal r
      else if c = '+' then isUDecimal r
      else isUDecimal (c :: r)

/-- Value of an unsigned decimal numeral, computed by splitting at the dot. -/
def decValueU (cs : List Char) : ℚ :=
  let ip := cs.takeWhile (fun c => c ≠ '.')
  let rest := cs.dropWhile (fun c => c ≠ '.')
  (digitsToNat ip : ℚ) +
    (match rest with
     | '.' :: fp => (digitsToNat fp : ℚ) / (10 : ℚ) ^ fp.length
     | _ => 0)

/-- Value of a signed decimal numeral. -/
def decValue (cs : List Char) : ℚ :=
  match cs with
  | [] => 0
  | c :: r =>
      if c = '-' then -(decValueU r)
      else if c = '+' then decValueU r
      else decValueU (c :: r)

/-- Exponent-suffix grammar: an optional single sign, then at least one
digit. -/
def isExpPart (cs : List Char) : Bool :=
  match cs with
  | [] => false
  | c :: r =>
      if c = '-' then !r.isEmpty && r.all isDigitC
      else if c = '+' then !r.isEmpty && r.all isDigitC
      else (c :: r).all isDigitC

/-- Signed integer value of an exponent suffix. -/
def expValue (cs : List Char) : Int :=
  match cs with
  | [] => 0
  | c :: r =>
      if c = '-' then -(digitsToNat r : Int)
      else if c = '+' then (digitsToNat r : Int)
      else (digitsToNat (c :: r) : Int)

/-- Amended-grammar numeral with an optional scientific-notation exponent:
a signed decimal mantissa, optionally followed by `e` and a signed digit
run. -/
def isSciDecimal (cs : List Char) : Bool :=
  match cs.dropWhile (fun c => c ≠ 'e') with
  | [] => isSignedDecimal cs
  | _ :: ex => isSignedDecimal (cs.takeWhile (fun c => c ≠ 'e')) && isExpPart ex

/-- Value of a scientific-notation numeral: the mantissa's value times
`10 ^ exponent`. -/
def sciValue (cs : List Char) : ℚ :=
  match cs.dropWhile (fun c => c ≠ 'e') with
  | [] => decValue cs
  | _ :: ex => decValue (cs.takeWhile (fun c => c ≠ 'e')) * (10 : ℚ) ^ (expValue ex)

/-! ## Concrete tables for counterexamples and witnesses -/

/-- Two columns, no description-like and no category-like name. -/
def tNoDesc : Table := [("A", [.str "2023-12-01"]), ("B", [.str "5"])]

/-- Well-formed roles but one malformed date cell in row 2. -/
def tBadDate : Table :=
  [("Date", [.str "2023-12-01", .str "notadate"]),
   ("Amount", [.str "5", .str "6"]),
   ("Desc", [.str "x", .str "y"])]

/-- A column named `Credit` that the date fallback consumes. -/
def tCreditStolen : Table :=
  [("Credit", [.str "1"]), ("B", [.str "2"]), ("C", [.str "3"])]

/-- Dual-column table: credit `"500"`, debit `"120.50"`. -/
def tDual : Table :=
  [("Date", [.str "2023-12-01"]), ("Debit", [.str "120.50"]),
   ("Desc", [.str "x"]), ("Receive", [.str "500"])]

/-- Ledger produced from `tDual`. -/
def ledDual : Table :=
  [("Date", [.date (.ymd 2023 12 1)]),
   ("Debit", [.num ⟨12050, 2⟩]),
   ("Description", [.str "x"]),
   ("Receive", [.num ⟨500, 0⟩]),
   ("Amount", [.num ⟨37950, 2⟩]),
   ("Category", [.str "Other"])]

/-- Four source columns; `Balance` is consumed by no role. -/
def tExtraCol : Table :=
  [("Date", [.str "2023-12-01"]), ("Amount", [.str "5"]),
   ("Desc", [.str "x"]), ("Balance", [.str "b"])]

/-- Missing date cell in row 2 and missing description cell in row 1. -/
def tNulls : Table :=
  [("Date", [.str "2023-12-01", .null]),
   ("Amount", [.str "5", .str "6"]),
   ("Desc", [.null, .str "x"])]

/-- Ledger produced from `tNulls`. -/
def ledNulls : Table :=
  [("Date", [.date (.ymd 2023 12 1), .null]),
   ("Amount", [.num ⟨5, 0⟩, .num ⟨6, 0⟩]),
   ("Description", [.null, .str "x"]),
   ("Category", [.str "Other", .str "Other"])]

/-- A column whose name contains `cat` (and `name`), consumed by the
description role. -/
def tCatStolen : Table :=
  [("Date", [.str "2023-12-01"]), ("Amount", [.num ⟨5, 0⟩]),
   ("CatName", [.str "Food"])]

/-- A dual-path table whose category-role column doubles as the credit
column: `Credit Cat` contains both `credit` and `cat`, is consumed by no
rename and survives to the category search, yet the dual netting overwrites
its cells with cleaned numeric values before the `Category` rename. -/
def tCatDual : Table :=
  [("Date", [.str "2023-12-01"]), ("Desc", [.str "x"]),
   ("Credit Cat", [.str "hello"]), ("Amount", [.str "20"])]

/-- A surviving category column whose values must pass through verbatim. -/
def tCatKept : Table :=
  [("Date", [.str "2023-12-01"]), ("Amount", [.num ⟨5, 0⟩]),
   ("Desc", [.str "rema pizza"]), ("Category", [.str "Whatever"])]

/-- Ledger produced from `tCatKept`. -/
def ledCatKept : Table :=
  [("Date", [.date (.ymd 2023 12 1)]),
   ("Amount", [.num ⟨5, 0⟩]),
   ("Description", [.str "rema pizza"]),
   ("Category", [.str "Whatever"])]

/-- A minimal already-canonical ledger (for the idempotence witness). -/
def tCanon : Table := [("Date", [.str "2023-12-01"]), ("Amount", [.str "5"])]

/-- `finalPass tCanon`. -/
def ledCanon : Table :=
  [("Date", [.date (.ymd 2023 12 1)]), ("Amount", [.num ⟨5, 0⟩])]

/-- The canonical sample ledger: `finalPass sampleTable`. -/
def sampleOut : Table :=
  [("Date", [.date (.ymd 2023 12 1), .date (.ymd 2023 12 2), .date (.ymd 2023 12 5),
             .date (.ymd 2023 12 8), .date (.ymd 2023 12 10)]),
   ("Description", [.str "Grocery Store", .str "Salary", .str "Netflix",
                    .str "Gas Station", .str "Restaurant"]),
   ("Category", [.str "Groceries 🛒", .str "Income 💰", .str "Entertainment 🎬",
                 .str "Transport 🚆", .str "Food & Dining 🍔"]),
   ("Amount", [.num ⟨-150, 0⟩, .num ⟨3000, 0⟩, .num ⟨-15, 0⟩,
               .num ⟨-45, 0⟩, .num ⟨-60, 0⟩])]

/-- A description matching a grocery keyword, a restaurant keyword, and both
Savings tokens at once. -/
def savingsGroceryDesc : String := "kontoregulering mobil overføring rema pizza"

/-! ## Claim theorems (with their counterexamples and witnesses) -/

/-- C1: the claim says bad input data never aborts the pipeline — an absent
description role degrades to empty text and a malformed date fails only its
own row. The code disagrees on both counts: on a two-column table with no
description-like and no category-like column, `df['Description']` raises
`KeyError` (line 74), and one malformed date cell makes `pd.to_datetime`
(line 94, default `errors='raise'`) abort the whole run. -/
theorem c1_fatal_errors_on_bad_input :
    pipeline (some tNoDesc) none = .error (.keyError "Description") ∧
    pipeline (some tBadDate) none = .error .valueError := by decide

/-- C8: with no uploaded file and no local `statement.csv`, the pipeline
succeeds and returns the built-in sample ledger: 5 rows in every column,
and the Amount column sums to 2730. -/
theorem c8_sample_fallback :
    pipeline none none = .ok sampleOut ∧
    sampleOut.map (fun c => c.2.length) = [5, 5, 5, 5] ∧
    ((getColD "Amount" sampleOut).map cellVal).sum = 2730 := by
  refine ⟨by decide, by decide, ?_⟩
  rw [show getColD "Amount" sampleOut =
      [.num ⟨-150, 0⟩, .num ⟨3000, 0⟩, .num ⟨-15, 0⟩, .num ⟨-45, 0⟩, .num ⟨-60, 0⟩]
    from by decide]
  norm_num [cellVal, Dec10.val]

/-- C3, counterexample: `"+45"` is unchanged by the stripping chain and is
not a decimal numeral with an optional leading **minus** sign, so the claim
requires the Numeric Normalizer to return 0 on it; the code returns 45. -/
theorem c3_counterexample :
    stripAmount "+45" = "+45" ∧ isMinusDecimal ("+45".data) = false ∧
    cellNN (.str "+45") = 45 ∧ (45 : ℚ) ≠ 0 := by
  refine ⟨by decide, by decide, ?_, by norm_num⟩
  show (numNormD (.str "+45")).val = 45
  rw [show numNormD (.str "+45") = ⟨45, 0⟩ from by decide]
  norm_num [Dec10.val]

/-- C4, counterexample: on columns `["Credit", "B", "C"]` the date fallback
consumes `"Credit"` (renamed to `Date`) before the credit search runs, so
the code infers no credit role while the claim's reference map (first match
over the original names, independently per role) assigns credit = `"Credit"`. -/
theorem c4_counterexample :
    codeRoleMap tCreditStolen ≠ specRoleMap tCreditStolen ∧
    (specRoleMap tCreditStolen).credit = some "Credit" ∧
    (codeRoleMap tCreditStolen).credit = none := by decide

/-- C5, counterexample: a description containing both a grocery keyword
(`rema`) and a restaurant keyword (`pizza`) — but also both Savings tokens —
is labelled `Savings 🏦`, not `Groceries 🛒` as the claim's final clause
demands. -/
theorem c5_counterexample :
    containsS (pyLower savingsGroceryDesc) "rema" = true ∧
    containsS (pyLower savingsGroceryDesc) "pizza" = true ∧
    categorize (.str savingsGroceryDesc) = "Savings 🏦" ∧
    "Savings 🏦" ≠ "Groceries 🛒" := by decide

/-- C6, counterexample: a four-column source table with an unconsumed
`Balance` column yields a five-column ledger, in source order with
`Category` appended — not "exactly four columns in the order Date,
Description, Amount, Category". -/
theorem c6_counterexample :
    namesOf? (pipeline (some tExtraCol) none) =
      some ["Date", "Amount", "Description", "Balance", "Category"] ∧
    (["Date", "Amount", "Description", "Balance", "Category"] : List String) ≠
      ["Date", "Description", "Amount", "Category"] := by decide

/-- C7, counterexample: a missing description cell stays null in the ledger
and a missing date cell becomes NaT (null) — the claim's "every field is
non-null" fails for date and description. -/
theorem c7_counterexample :
    pipeline (some tNulls) none = .ok ledNulls ∧
    Cell.null ∈ getColD "Description" ledNulls ∧
    Cell.null ∈ getColD "Date" ledNulls := by decide

/-- C10, counterexample: two failures of the claim. `CatName` is a
category-role column (contains `cat`), but the description search consumes
it first, so the categorizer runs anyway and its supplied value `"Food"`
never reaches the ledger. And `Credit Cat` survives every rename and is
found by the category search, yet — being also the credit column of the
dual netting path — its value `"hello"` has already been overwritten by the
numeric cleaning when the `Category` rename happens, so the ledger holds
`0`, not the supplied text. -/
theorem c10_counterexample :
    isCatName "CatName" = true ∧
    getCol "CatName" tCatStolen = some [.str "Food"] ∧
    colIn? "Category" (pipeline (some tCatStolen) none) = some [.str "Other"] ∧
    Cell.str "Other" ≠ Cell.str "Food" ∧
    isCatName "Credit Cat" = true ∧
    catColOf tCatDual = some "Credit Cat" ∧
    receiveColOf tCatDual = some "Credit Cat" ∧
    getCol "Credit Cat" tCatDual = some [.str "hello"] ∧
    colIn? "Category" (pipeline (some tCatDual) none) = some [.num ⟨0, 0⟩] ∧
    Cell.num ⟨0, 0⟩ ≠ Cell.str "hello" := by decide

/-! ## Decimal rendering and parsing: correctness lemmas -/

theorem digitVal_digitChar10 {k : Nat} (hk : k < 10) : digitVal (digitChar10 k) = k := by
  interval_cases k <;> rfl

theorem isDigitC_digitChar10 {k : Nat} (hk : k < 10) : isDigitC (digitChar10 k) = true := by
  interval_cases k <;> rfl

theorem natCharsAux_digits :
    ∀ fuel n : Nat, ∀ c ∈ natCharsAux fuel n, isDigitC c = true := by
  intro fuel
  induction fuel with
  | zero => intro n c hc; simp [natCharsAux] at hc
  | succ f ih =>
      intro n c hc
      cases n with
      | zero => simp [natCharsAux] at hc
      | succ m =>
          simp only [natCharsAux, List.mem_cons] at hc
          rcases hc with rfl | hc
          · exact isDigitC_digitChar10 (Nat.mod_lt _ (by norm_num))
          · exact ih _ c hc

theorem natCharsAux_foldl :
    ∀ fuel n : Nat, n ≤ fuel → ∀ i : Nat,
      ((natCharsAux fuel n).reverse).foldl (fun a c => 10 * a + digitVal c) i =
        i * 10 ^ (natCharsAux fuel n).length + n := by
  intro fuel
  induction fuel with
  | zero => intro n hn i; interval_cases n; simp [natCharsAux]
  | succ f ih =>
      intro n hn i
      cases n with
      | zero => simp [natCharsAux]
      | succ m =>
          have hdiv : (m + 1) / 10 ≤ f := by omega
          simp only [natCharsAux, List.reverse_cons, List.foldl_append, List.foldl_cons,
            List.foldl_nil, List.length_cons]
          rw [ih _ hdiv i, digitVal_digitChar10 (Nat.mod_lt _ (by norm_num))]
          have hmod : 10 * ((m + 1) / 10) + (m + 1) % 10 = m + 1 := Nat.div_add_mod _ 10
          ring_nf
          omega

theorem digitsToNat_natChars (n : Nat) : digitsToNat (natChars n) = n := by
  by_cases h : n = 0
  · subst h; rfl
  · unfold natChars digitsToNat
    rw [if_neg h, natCharsAux_foldl n n le_rfl 0]
    ring

theorem natChars_digits {n : Nat} : ∀ c ∈ natChars n, isDigitC c = true := by
  intro c hc
  unfold natChars at hc
  split at hc
  · simp at hc; subst hc; rfl
  · exact natCharsAux_digits n n c (List.mem_reverse.mp hc)

theorem natChars_ne_nil (n : Nat) : natChars n ≠ [] := by
  unfold natChars
  split
  · simp
  · intro h
    rw [List.reverse_eq_nil_iff] at h
    rename_i hn
    cases n with
    | zero => exact hn rfl
    | succ m => simp [natCharsAux] at h

theorem natCharsAux_length_le :
    ∀ fuel n k : Nat, n ≤ fuel → n < 10 ^ k → (natCharsAux fuel n).length ≤ k := by
  intro fuel
  induction fuel with
  | zero => intro n k hn _; interval_cases n; simp [natCharsAux]
  | succ f ih =>
      intro n k hn hk
      cases n with
      | zero => simp [natCharsAux]
      | succ m =>
          cases k with
          | zero => simp at hk
          | succ j =>
              have h1 : (m + 1) / 10 ≤ f := by omega
              have h2 : (m + 1) / 10 < 10 ^ j := by
                have := Nat.pow_succ 10 j
                omega
              simpa [natCharsAux] using ih _ j h1 h2

theorem natChars_length_le {n k : Nat} (hk : 1 ≤ k) (h : n < 10 ^ k) :
    (natChars n).length ≤ k := by
  unfold natChars
  split
  · simpa using hk
  · simpa using natCharsAux_length_le n n k le_rfl h

theorem takeWhile_all {p : Char → Bool} :
    ∀ l : List Char, (∀ c ∈ l, p c = true) → l.takeWhile p = l := by
  intro l h
  induction l with
  | nil => rfl
  | cons a t ih =>
      rw [List.takeWhile_cons, h a (by simp)]
      simp [ih fun c hc => h c (by simp [hc])]

theorem dropWhile_all {p : Char → Bool} :
    ∀ l : List Char, (∀ c ∈ l, p c = true) → l.dropWhile p = [] := by
  intro l h
  induction l with
  | nil => rfl
  | cons a t ih =>
      rw [List.dropWhile_cons, h a (by simp)]
      simp [ih fun c hc => h c (by simp [hc])]

theorem takeWhile_app {p : Char → Bool} {l1 l2 : List Char} {c0 : Char}
    (h1 : ∀ c ∈ l1, p c = true) (h0 : p c0 = false) :
    (l1 ++ c0 :: l2).takeWhile p = l1 ∧ (l1 ++ c0 :: l2).dropWhile p = c0 :: l2 := by
  induction l1 with
  | nil => simp [List.takeWhile_cons, List.dropWhile_cons, h0]
  | cons a t ih =>
      have ha : p a = true := h1 a (by simp)
      have iht := ih fun c hc => h1 c (by simp [hc])
      simp [List.takeWhile_cons, List.dropWhile_cons, ha, iht.1, iht.2]

theorem foldl_digits_replicate_zero (k : Nat) :
    (List.replicate k '0').foldl (fun a c => 10 * a + digitVal c) 0 = 0 := by
  induction k with
  | zero => rfl
  | succ j ih => simpa [List.replicate_succ, digitVal] using ih

theorem digitsToNat_replicate_append (k : Nat) (l : List Char) :
    digitsToNat (List.replicate k '0' ++ l) = digitsToNat l := by
  unfold digitsToNat
  rw [List.foldl_append, foldl_digits_replicate_zero]

theorem padZeros_length {e : Nat} {cs : List Char} (h : cs.length ≤ e) :
    (padZeros e cs).length = e := by
  simp [padZeros]
  omega

theorem digitsToNat_padZeros (e : Nat) (cs : List Char) :
    digitsToNat (padZeros e cs) = digitsToNat cs := by
  unfold padZeros
  exact digitsToNat_replicate_append _ _

theorem padZeros_digits {e : Nat} {cs : List Char} (h : ∀ c ∈ cs, isDigitC c = true) :
    ∀ c ∈ padZeros e cs, isDigitC c = true := by
  intro c hc
  rcases List.mem_append.mp hc with hm | hm
  · rw [List.eq_of_mem_replicate hm]; rfl
  · exact h c hm

theorem isDigitC_ne_signs {c : Char} (h : isDigitC c = true) : c ≠ '-' ∧ c ≠ '+' ∧ c ≠ '.' := by
  refine ⟨?_, ?_, ?_⟩ <;> rintro rfl <;> exact absurd h (by decide)

theorem natChars_isEmpty (n : Nat) : (natChars n).isEmpty = false := by
  rcases List.exists_cons_of_ne_nil (natChars_ne_nil n) with ⟨c, t, hct⟩
  rw [hct]; rfl

theorem parseUDec_digits (n0 : Nat) (neg : Bool) :
    parseUDec neg (natChars n0) = some ⟨(if neg then -1 else 1) * (n0 : Int), 0⟩ := by
  unfold parseUDec
  rw [takeWhile_all _ natChars_digits, dropWhile_all _ natChars_digits]
  simp [natChars_isEmpty, digitsToNat_natChars]

theorem parseUDec_app_frac (ip0 f e : Nat) (he : 1 ≤ e) (hf : f < 10 ^ e) (neg : Bool) :
    parseUDec neg (natChars ip0 ++ '.' :: padZeros e (natChars f)) =
      some ⟨(if neg then -1 else 1) * ((ip0 : Int) * (10 : Int) ^ e + (f : Int)), e⟩ := by
  have htw := @takeWhile_app isDigitC (natChars ip0)
    (padZeros e (natChars f)) '.' (@natChars_digits ip0) rfl
  have hall : (padZeros e (natChars f)).all isDigitC = true :=
    List.all_eq_true.mpr (padZeros_digits (@natChars_digits f))
  have hlen : (padZeros e (natChars f)).length = e :=
    padZeros_length (natChars_length_le he hf)
  unfold parseUDec
  rw [htw.1, htw.2]
  simp [hall, hlen, natChars_isEmpty, digitsToNat_padZeros, digitsToNat_natChars]

theorem benign_char_facts {c : Char} (h : isDigitC c = true ∨ c = '-' ∨ c = '.') :
    pyLowerChar c = c ∧ c ≠ ',' ∧ c ≠ '$' ∧ c ≠ ' ' ∧ c ≠ 'k' := by
  rcases h with h | rfl | rfl
  · have hd := h
    simp only [isDigitC, Bool.and_eq_true, decide_eq_true_eq] at hd
    have hA : ¬('A' ≤ c ∧ c ≤ 'Z') := fun hh => absurd (le_trans hh.1 hd.2) (by decide)
    have hO : c ≠ 'Ø' := fun hh => by subst hh; exact absurd h (by decide)
    have hAa : c ≠ 'Å' := fun hh => by subst hh; exact absurd h (by decide)
    have hAe : c ≠ 'Æ' := fun hh => by subst hh; exact absurd h (by decide)
    refine ⟨?_, ?_, ?_, ?_, ?_⟩
    · unfold pyLowerChar
      rw [if_neg hA, if_neg hO, if_neg hAa, if_neg hAe]
    all_goals rintro rfl; exact absurd h (by decide)
  · exact ⟨by decide, by decide, by decide, by decide, by decide⟩
  · exact ⟨by decide, by decide, by decide, by decide, by decide⟩

theorem renderDec_benign (d : Dec10) :
    ∀ c ∈ (renderDec d).data, isDigitC c = true ∨ c = '-' ∨ c = '.' := by
  obtain ⟨m, e⟩ := d
  have hsign : ∀ c ∈ (if m < 0 then ['-'] else ([] : List Char)), c = '-' := by
    intro c hc
    split at hc
    · simpa using hc
    · simp at hc
  cases e with
  | zero =>
      intro c hc
      have hc' : c ∈ (if m < 0 then ['-'] else ([] : List Char)) ++ natChars m.natAbs := hc
      rcases List.mem_append.mp hc' with hm | hm
      · exact Or.inr (Or.inl (hsign c hm))
      · exact Or.inl (natChars_digits c hm)
  | succ e' =>
      intro c hc
      have hc' : c ∈ (if m < 0 then ['-'] else ([] : List Char)) ++
          natChars (m.natAbs / 10 ^ (e' + 1)) ++
          '.' :: padZeros (e' + 1) (natChars (m.natAbs % 10 ^ (e' + 1))) := hc
      rcases List.mem_append.mp hc' with hm | hm
      · rcases List.mem_append.mp hm with hm2 | hm2
        · exact Or.inr (Or.inl (hsign c hm2))
        · exact Or.inl (natChars_digits c hm2)
      · rcases List.mem_cons.mp hm with rfl | hm2
        · exact Or.inr (Or.inr rfl)
        · exact Or.inl (padZeros_digits natChars_digits c hm2)

theorem parseNum_main_of_no_e {s : String} (h : ∀ c ∈ s.data, c ≠ 'e') :
    parseNum s = parseNumM s.data := by
  unfold parseNum
  rw [dropWhile_all s.data (fun c hc => decide_eq_true (h c hc))]

theorem renderDec_no_e (d : Dec10) : ∀ c ∈ (renderDec d).data, c ≠ 'e' := by
  intro c hc
  rcases renderDec_benign d c hc with hd | rfl | rfl
  · intro he
    subst he
    exact absurd hd (by decide)
  · decide
  · decide

theorem parseNum_renderDec (d : Dec10) : parseNum (renderDec d) = some d := by
  obtain ⟨m, e⟩ := d
  rw [parseNum_main_of_no_e (renderDec_no_e ⟨m, e⟩)]
  have hmod : ∀ P : Nat, (m.natAbs / P) * P + m.natAbs % P = m.natAbs := by
    intro P
    rw [Nat.mul_comm]
    exact Nat.div_add_mod _ _
  cases e with
  | zero =>
      by_cases hm : m < 0
      · show parseNumM ((if m < 0 then ['-'] else []) ++ natChars m.natAbs) = _
        rw [if_pos hm]
        show parseUDec true (natChars m.natAbs) = _
        rw [parseUDec_digits]
        simp only [Option.some.injEq, Dec10.mk.injEq]
        refine ⟨?_, trivial⟩
        simp only [if_true]
        omega
      · show parseNumM ((if m < 0 then ['-'] else []) ++ natChars m.natAbs) = _
        rw [if_neg hm]
        rcases List.exists_cons_of_ne_nil (natChars_ne_nil m.natAbs) with ⟨c0, t0, hct⟩
        have hd0 : isDigitC c0 = true := @natChars_digits m.natAbs c0 (by rw [hct]; simp)
        have hne := isDigitC_ne_signs hd0
        show parseNumM (natChars m.natAbs) = _
        rw [hct]
        show (if c0 = '-' then parseUDec true t0
              else if c0 = '+' then parseUDec false t0
              else parseUDec false (c0 :: t0)) = _
        rw [if_neg hne.1, if_neg hne.2.1, ← hct, parseUDec_digits]
        simp only [Option.some.injEq, Dec10.mk.injEq]
        refine ⟨?_, trivial⟩
        simp only [Bool.false_eq_true, if_false]
        omega
  | succ e' =>
      set e := e' + 1 with he
      set ip0 := m.natAbs / 10 ^ e with hip0
      set f := m.natAbs % 10 ^ e with hfdef
      have hf : f < 10 ^ e := Nat.mod_lt _ (by positivity)
      have hcast : (ip0 : Int) * (10 : Int) ^ e + (f : Int) = (m.natAbs : Int) := by
        have h1 : ip0 * 10 ^ e + f = m.natAbs := hmod (10 ^ e)
        exact_mod_cast congrArg (Nat.cast : Nat → Int) h1
      by_cases hm : m < 0
      · show parseNumM ((if m < 0 then ['-'] else []) ++ natChars ip0 ++
          '.' :: padZeros e (natChars f)) = _
        rw [if_pos hm]
        show parseUDec true (natChars ip0 ++ '.' :: padZeros e (natChars f)) = _
        rw [parseUDec_app_frac ip0 f e (by omega) hf]
        simp only [Option.some.injEq, Dec10.mk.injEq, hcast]
        refine ⟨?_, trivial⟩
        simp only [if_true]
        omega
      · show parseNumM ((if m < 0 then ['-'] else []) ++ natChars ip0 ++
          '.' :: padZeros e (natChars f)) = _
        rw [if_neg hm]
        rcases List.exists_cons_of_ne_nil (natChars_ne_nil ip0) with ⟨c0, t0, hct⟩
        have hd0 : isDigitC c0 = true := @natChars_digits ip0 c0 (by rw [hct]; simp)
        have hne := isDigitC_ne_signs hd0
        show parseNumM (natChars ip0 ++ '.' :: padZeros e (natChars f)) = _
        rw [hct, List.cons_append]
        show (if c0 = '-' then parseUDec true (t0 ++ '.' :: padZeros e (natChars f))
              else if c0 = '+' then parseUDec false (t0 ++ '.' :: padZeros e (natChars f))
              else parseUDec false (c0 :: (t0 ++ '.' :: padZeros e (natChars f)))) = _
        rw [if_neg hne.1, if_neg hne.2.1, ← List.cons_append, ← hct,
          parseUDec_app_frac ip0 f e (by omega) hf]
        simp only [Option.some.injEq, Dec10.mk.injEq, hcast]
        refine ⟨?_, trivial⟩
        simp only [Bool.false_eq_true, if_false]
        omega

/-! ## The cleaning chain fixes rendered numbers -/

theorem map_id_of {f : Char → Char} :
    ∀ l : List Char, (∀ c ∈ l, f c = c) → l.map f = l := by
  intro l h
  induction l with
  | nil => rfl
  | cons a t ih => rw [List.map_cons, h a (by simp), ih fun c hc => h c (by simp [hc])]

theorem removeChar_id {x : Char} :
    ∀ l : List Char, (∀ c ∈ l, c ≠ x) → removeChar x l = l := by
  intro l h
  induction l with
  | nil => rfl
  | cons a t ih =>
      rw [removeChar, if_neg (h a (by simp)), ih fun c hc => h c (by simp [hc])]

theorem removeKr_id :
    ∀ l : List Char, (∀ c ∈ l, c ≠ 'k') → removeKr l = l := by
  intro l h
  induction l with
  | nil => rfl
  | cons a t ih =>
      cases t with
      | nil => rfl
      | cons b s =>
          have hr : removeKr (a :: b :: s) =
              if a = 'k' ∧ b = 'r' then removeKr s else a :: removeKr (b :: s) := rfl
          rw [hr, if_neg (fun hh => h a (by simp) hh.1),
            ih fun c hc => h c (by simp [hc])]

theorem stripAmount_id {s : String}
    (h : ∀ c ∈ s.data, isDigitC c = true ∨ c = '-' ∨ c = '.') :
    stripAmount s = s := by
  have hb := fun c hc => benign_char_facts (h c hc)
  show String.mk (removeChar ' ' (removeKr (removeChar '$' (removeChar ','
    (s.data.map pyLowerChar))))) = s
  rw [map_id_of s.data fun c hc => (hb c hc).1,
    removeChar_id s.data fun c hc => (hb c hc).2.1,
    removeChar_id s.data fun c hc => (hb c hc).2.2.1,
    removeKr_id s.data fun c hc => (hb c hc).2.2.2.2,
    removeChar_id s.data fun c hc => (hb c hc).2.2.2.1]

theorem numNormD_num (d : Dec10) : numNormD (.num d) = d := by
  show (toNumericDec (.str (stripAmount (renderDec d)))).getD ⟨0, 0⟩ = d
  rw [stripAmount_id (renderDec_benign d)]
  show (parseNum (renderDec d)).getD ⟨0, 0⟩ = d
  rw [parseNum_renderDec]
  rfl

theorem cellNN_num (d : Dec10) : cellNN (.num d) = d.val := by
  show (numNormD (.num d)).val = d.val
  rw [numNormD_num]

theorem Dec10.sub_val (a b : Dec10) : (a.sub b).val = a.val - b.val := by
  show ((a.m * (10 : Int) ^ b.e - b.m * (10 : Int) ^ a.e : Int) : ℚ) / (10 : ℚ) ^ (a.e + b.e) =
    (a.m : ℚ) / (10 : ℚ) ^ a.e - (b.m : ℚ) / (10 : ℚ) ^ b.e
  have h10 : (10 : ℚ) ≠ 0 := by norm_num
  push_cast
  rw [pow_add]
  field_simp
  ring

/-! ## The parser agrees with the spec-side decimal grammar and value -/

theorem dec10_val_int (k : Int) : Dec10.val ⟨k, 0⟩ = (k : ℚ) := by
  show (k : ℚ) / (10 : ℚ) ^ 0 = (k : ℚ)
  rw [pow_zero, div_one]

theorem dec10_val_neg (m : Int) (e : Nat) : Dec10.val ⟨-m, e⟩ = -(Dec10.val ⟨m, e⟩) := by
  show ((-m : Int) : ℚ) / (10 : ℚ) ^ e = -((m : ℚ) / (10 : ℚ) ^ e)
  push_cast
  ring

theorem parseUDec_neg (cs : List Char) :
    parseUDec true cs = (parseUDec false cs).map (fun dd => ⟨-dd.m, dd.e⟩) := by
  unfold parseUDec
  by_cases h1 : (cs.dropWhile isDigitC).isEmpty
  · by_cases h2 : (cs.takeWhile isDigitC).isEmpty
    · simp [h1, h2]
    · simp only [h1, h2, if_true, Bool.false_eq_true, if_false, Option.map_some',
        neg_one_mul, one_mul]
  · by_cases h2 : (cs.dropWhile isDigitC).head? = some '.'
    · by_cases h3 : ((cs.dropWhile isDigitC).tail.all isDigitC &&
        !((cs.takeWhile isDigitC).isEmpty && (cs.dropWhile isDigitC).tail.isEmpty)) = true
      · simp only [h1, h2, h3, Bool.false_eq_true, if_false, if_true, Option.map_some',
        neg_one_mul, one_mul]
      · simp [h1, h2, h3]
    · simp [h1, h2]

theorem dropWhile_head_false {p : Char → Bool} :
    ∀ (l : List Char) (c : Char) (l' : List Char), l.dropWhile p = c :: l' → p c = false := by
  intro l
  induction l with
  | nil => intro c l' h; cases h
  | cons a t ih =>
      intro c l' h
      rw [List.dropWhile_cons] at h
      split at h
      · exact ih c l' h
      · cases h
        rename_i hpa
        simpa using hpa

theorem isUDecimal_unpack {cs : List Char} (h : isUDecimal cs = true) :
    cs ≠ [] ∧ (∀ c ∈ cs, isDigitC c = true ∨ c = '.') ∧
    cs.count '.' ≤ 1 ∧ ∃ c ∈ cs, isDigitC c = true := by
  unfold isUDecimal at h
  rw [Bool.and_eq_true, Bool.and_eq_true, Bool.and_eq_true] at h
  obtain ⟨⟨⟨hne, hall⟩, hcount⟩, hany⟩ := h
  refine ⟨?_, ?_, ?_, ?_⟩
  · intro hnil
    subst hnil
    exact absurd hne (by decide)
  · intro c hc
    have := List.all_eq_true.mp hall c hc
    simpa only [Bool.or_eq_true, decide_eq_true_eq] using this
  · exact of_decide_eq_true hcount
  · exact List.any_eq_true.mp hany

theorem parseUDec_decValueU {cs : List Char} (h : isUDecimal cs = true) :
    ∃ dd, parseUDec false cs = some dd ∧ dd.val = decValueU cs := by
  obtain ⟨hne, hall, hcount, hany⟩ := isUDecimal_unpack h
  have hsplit : cs.takeWhile isDigitC ++ cs.dropWhile isDigitC = cs :=
    List.takeWhile_append_dropWhile isDigitC cs
  have hipdig : ∀ c ∈ cs.takeWhile isDigitC, isDigitC c = true :=
    fun c hc => List.mem_takeWhile_imp hc
  cases hr : cs.dropWhile isDigitC with
  | nil =>
      have hcs : cs.takeWhile isDigitC = cs := by
        conv_rhs => rw [← hsplit, hr]
        rw [List.append_nil]
      have hcsdig : ∀ c ∈ cs, isDigitC c = true := by
        intro c hc
        apply hipdig
        rw [hcs]
        exact hc
      have hipne : (cs.takeWhile isDigitC).isEmpty = false := by
        rw [hcs]
        rcases List.exists_cons_of_ne_nil hne with ⟨c0, t0, hct⟩
        rw [hct]; rfl
      refine ⟨⟨(digitsToNat cs : Int), 0⟩, ?_, ?_⟩
      · unfold parseUDec
        rw [hr, hcs]
        simp [hipne]
        exact hne
      · rw [dec10_val_int]
        unfold decValueU
        rw [takeWhile_all cs (fun c hc => by
            simp only [decide_eq_true_eq]
            exact (isDigitC_ne_signs (hcsdig c hc)).2.2),
          dropWhile_all cs (fun c hc => by
            simp only [decide_eq_true_eq]
            exact (isDigitC_ne_signs (hcsdig c hc)).2.2)]
        simp
  | cons c0 fp =>
      have hc0 : isDigitC c0 = false := dropWhile_head_false cs c0 fp hr
      have hc0mem : c0 ∈ cs := by
        rw [← hsplit, hr]
        exact List.mem_append_right _ (by simp)
      have hc0dot : c0 = '.' := by
        rcases hall c0 hc0mem with hd | hd
        · rw [hd] at hc0; cases hc0
        · exact hd
      subst hc0dot
      have hipdot : '.' ∉ cs.takeWhile isDigitC := fun hm => by
        have := hipdig '.' hm
        exact absurd this (by decide)
      have hfp : ∀ c ∈ fp, isDigitC c = true := by
        intro c hc
        rcases hall c (by rw [← hsplit, hr]; exact List.mem_append_right _ (by simp [hc])) with hd | hd
        · exact hd
        · subst hd
          have hge : 2 ≤ cs.count '.' := by
            rw [← hsplit, hr, List.count_append, List.count_cons_self]
            have h1 : 0 < fp.count '.' := List.count_pos_iff.mpr hc
            have h0 : (cs.takeWhile isDigitC).count '.' = 0 := List.count_eq_zero.mpr hipdot
            omega
          omega
      have hnotboth : ¬((cs.takeWhile isDigitC).isEmpty = true ∧ fp.isEmpty = true) := by
        rintro ⟨h1, h2⟩
        have hip0 : cs.takeWhile isDigitC = [] := List.isEmpty_iff.mp h1
        have hfp0 : fp = [] := List.isEmpty_iff.mp h2
        have : cs = ['.'] := by rw [← hsplit, hr, hip0, hfp0]; rfl
        rcases hany with ⟨c, hc, hcd⟩
        rw [this] at hc
        rcases List.mem_singleton.mp hc with rfl
        exact absurd hcd (by decide)
      have htw2 := @takeWhile_app (fun c => decide (c ≠ '.'))
        (cs.takeWhile isDigitC) fp '.'
        (fun c hc => by
          simp only [decide_eq_true_eq]
          exact (isDigitC_ne_signs (hipdig c hc)).2.2)
        (by decide)
      refine ⟨⟨(digitsToNat (cs.takeWhile isDigitC) : Int) * (10 : Int) ^ fp.length +
        (digitsToNat fp : Int), fp.length⟩, ?_, ?_⟩
      · unfold parseUDec
        rw [hr]
        have hboth : ((cs.takeWhile isDigitC).isEmpty && fp.isEmpty) = false := by
          cases hA : (cs.takeWhile isDigitC).isEmpty
          · simp
          · cases hB : fp.isEmpty
            · simp
            · exact absurd ⟨hA, hB⟩ hnotboth
        have hcond : (fp.all isDigitC &&
            !((cs.takeWhile isDigitC).isEmpty && fp.isEmpty)) = true := by
          rw [Bool.and_eq_true]
          exact ⟨List.all_eq_true.mpr hfp, by rw [hboth]; rfl⟩
        simp only [List.isEmpty_cons, List.head?_cons, List.tail_cons, Bool.false_eq_true,
          if_false, eq_self_iff_true, if_true]
        rw [hcond]
        simp [one_mul]
      · have hrw : cs = cs.takeWhile isDigitC ++ '.' :: fp := by
          conv_lhs => rw [← hsplit, hr]
        have hdv : decValueU cs = (digitsToNat (cs.takeWhile isDigitC) : ℚ) +
            (digitsToNat fp : ℚ) / (10 : ℚ) ^ fp.length := by
          conv_lhs => rw [hrw]
          unfold decValueU
          rw [htw2.1, htw2.2]
          rfl
        rw [hdv]
        show (((digitsToNat (cs.takeWhile isDigitC) : Int) * (10 : Int) ^ fp.length +
          (digitsToNat fp : Int) : Int) : ℚ) / (10 : ℚ) ^ fp.length = _
        have h10 : (10 : ℚ) ^ fp.length ≠ 0 := by positivity
        push_cast
        field_simp

theorem isUDecimal_no_e {cs : List Char} (h : isUDecimal cs = true) :
    ∀ c ∈ cs, c ≠ 'e' := by
  intro c hc
  rcases (isUDecimal_unpack h).2.1 c hc with hd | rfl
  · intro he
    subst he
    exact absurd hd (by decide)
  · decide

theorem isSignedDecimal_no_e {cs : List Char} (h : isSignedDecimal cs = true) :
    ∀ c ∈ cs, c ≠ 'e' := by
  cases cs with
  | nil =>
      intro c hc
      cases hc
  | cons c0 l =>
      intro c hc
      by_cases h1 : c0 = '-'
      · subst h1
        rw [show isSignedDecimal ('-' :: l) = isUDecimal l from rfl] at h
        rcases List.mem_cons.mp hc with rfl | hc2
        · decide
        · exact isUDecimal_no_e h c hc2
      · by_cases h2 : c0 = '+'
        · subst h2
          rw [show isSignedDecimal ('+' :: l) = isUDecimal l from rfl] at h
          rcases List.mem_cons.mp hc with rfl | hc2
          · decide
          · exact isUDecimal_no_e h c hc2
        · rw [show isSignedDecimal (c0 :: l) =
              (if c0 = '-' then isUDecimal l else if c0 = '+' then isUDecimal l
               else isUDecimal (c0 :: l)) from rfl, if_neg h1, if_neg h2] at h
          exact isUDecimal_no_e h c hc

theorem parseNumM_decValue {cs : List Char} (h : isSignedDecimal cs = true) :
    ∃ dd, parseNumM cs = some dd ∧ dd.val = decValue cs := by
  cases cs with
  | nil => exact absurd h (by decide)
  | cons c0 l =>
      by_cases h1 : c0 = '-'
      · subst h1
        rw [show isSignedDecimal ('-' :: l) = isUDecimal l from rfl] at h
        obtain ⟨dd, hp, hv⟩ := parseUDec_decValueU h
        refine ⟨⟨-dd.m, dd.e⟩, ?_, ?_⟩
        · show parseUDec true l = some ⟨-dd.m, dd.e⟩
          rw [parseUDec_neg, hp]
          rfl
        · rw [dec10_val_neg]
          show -dd.val = decValue ('-' :: l)
          rw [hv]
          rfl
      · by_cases h2 : c0 = '+'
        · subst h2
          rw [show isSignedDecimal ('+' :: l) = isUDecimal l from rfl] at h
          obtain ⟨dd, hp, hv⟩ := parseUDec_decValueU h
          refine ⟨dd, hp, ?_⟩
          rw [hv]
          rfl
        · rw [show isSignedDecimal (c0 :: l) =
              (if c0 = '-' then isUDecimal l else if c0 = '+' then isUDecimal l
               else isUDecimal (c0 :: l)) from rfl, if_neg h1, if_neg h2] at h
          obtain ⟨dd, hp, hv⟩ := parseUDec_decValueU h
          refine ⟨dd, ?_, ?_⟩
          · show (if c0 = '-' then parseUDec true l
                  else if c0 = '+' then parseUDec false l
                  else parseUDec false (c0 :: l)) = some dd
            rw [if_neg h1, if_neg h2]
            exact hp
          · rw [hv]
            show decValueU (c0 :: l) =
              (if c0 = '-' then -(decValueU l) else if c0 = '+' then decValueU l
               else decValueU (c0 :: l))
            rw [if_neg h1, if_neg h2]

theorem parseExp_expValue {cs : List Char} (h : isExpPart cs = true) :
    parseExp cs = some (expValue cs) := by
  cases cs with
  | nil => exact absurd h (by decide)
  | cons c0 r =>
      simp only [isExpPart] at h
      simp only [parseExp, expValue]
      by_cases h1 : c0 = '-'
      · rw [if_pos h1] at h
        rw [Bool.and_eq_true] at h
        obtain ⟨hne, hall⟩ := h
        rw [if_pos h1, if_pos h1]
        simp [hall]
        intro hr
        subst hr
        exact absurd hne (by decide)
      · by_cases h2 : c0 = '+'
        · rw [if_neg h1, if_pos h2] at h
          rw [Bool.and_eq_true] at h
          obtain ⟨hne, hall⟩ := h
          rw [if_neg h1, if_pos h2, if_neg h1, if_pos h2]
          simp [hall]
          intro hr
          subst hr
          exact absurd hne (by decide)
        · rw [if_neg h1, if_neg h2] at h
          rw [if_neg h1, if_neg h2, if_neg h1, if_neg h2]
          simp [h]

theorem Dec10.scale_val (d : Dec10) (k : Int) :
    (d.scale k).val = d.val * (10 : ℚ) ^ k := by
  obtain ⟨m, e⟩ := d
  unfold Dec10.scale
  by_cases hk : 0 ≤ k
  · rw [if_pos hk]
    obtain ⟨n, rfl⟩ : ∃ n : Nat, k = (n : Int) := ⟨k.toNat, (Int.toNat_of_nonneg hk).symm⟩
    rw [show ((n : Int).toNat) = n from Int.toNat_natCast n, zpow_natCast]
    show ((m * (10 : Int) ^ n : Int) : ℚ) / (10 : ℚ) ^ e = (m : ℚ) / (10 : ℚ) ^ e * (10 : ℚ) ^ n
    push_cast
    ring
  · rw [if_neg hk]
    obtain ⟨n, rfl⟩ : ∃ n : Nat, k = -(n : Int) := ⟨(-k).toNat, by omega⟩
    rw [show ((-(-(n : Int))).toNat) = n from by omega]
    show (m : ℚ) / (10 : ℚ) ^ (e + n) = (m : ℚ) / (10 : ℚ) ^ e * (10 : ℚ) ^ (-(n : Int))
    rw [pow_add, div_mul_eq_div_div, div_eq_mul_inv ((m : ℚ) / (10 : ℚ) ^ e),
      zpow_neg, zpow_natCast]

theorem parseNum_sciValue {s : String} (h : isSciDecimal s.data = true) :
    ∃ dd, parseNum s = some dd ∧ dd.val = sciValue s.data := by
  unfold isSciDecimal at h
  unfold parseNum sciValue
  cases hdw : s.data.dropWhile (fun c => c ≠ 'e') with
  | nil =>
      rw [hdw] at h
      exact parseNumM_decValue h
  | cons e0 ex =>
      rw [hdw] at h
      rw [Bool.and_eq_true] at h
      dsimp only
      obtain ⟨dd, hp, hv⟩ := parseNumM_decValue h.1
      refine ⟨dd.scale (expValue ex), ?_, ?_⟩
      · rw [hp, parseExp_expValue h.2]
      · rw [Dec10.scale_val, hv]

/-- C3 (amended): for every cell whose text, after the lowercasing/stripping
chain, is a decimal numeral with an optional leading minus **or plus** sign
— optionally carrying a scientific-notation exponent, which `pd.to_numeric`
also accepts — the Numeric Normalizer returns that numeral's value (the
minus sign is never stripped); null, the empty string and `"nan"` give 0;
already-numeric cells pass through unchanged. (The original claim's "every
other value yields 0" fails — `"+45"` parses to 45 and `"1e5"` to 100000 —
so the zero clause is restricted to the missing-value spellings the spec
names.) -/
theorem c3_numeric_normalizer :
    (∀ c : Cell, isSignedDecimal (stripAmount (pyStr c)).data = true →
        cellNN c = decValue (stripAmount (pyStr c)).data) ∧
    (∀ c : Cell, isSciDecimal (stripAmount (pyStr c)).data = true →
        cellNN c = sciValue (stripAmount (pyStr c)).data) ∧
    cellNN .null = 0 ∧ cellNN (.str "") = 0 ∧ cellNN (.str "nan") = 0 ∧
    (∀ d : Dec10, cellNN (.num d) = d.val) := by
  have hsci : ∀ c : Cell, isSciDecimal (stripAmount (pyStr c)).data = true →
      cellNN c = sciValue (stripAmount (pyStr c)).data := by
    intro c h
    obtain ⟨dd, hp, hv⟩ := parseNum_sciValue h
    show ((parseNum (stripAmount (pyStr c))).getD ⟨0, 0⟩).val = _
    rw [hp]
    exact hv
  refine ⟨?_, hsci, ?_, ?_, ?_, cellNN_num⟩
  · intro c h
    have hdw : (stripAmount (pyStr c)).data.dropWhile (fun ch => ch ≠ 'e') = [] :=
      dropWhile_all _ (fun ch hc => decide_eq_true (isSignedDecimal_no_e h ch hc))
    have hsd : isSciDecimal (stripAmount (pyStr c)).data = true := by
      unfold isSciDecimal
      rw [hdw]
      exact h
    have hval : sciValue (stripAmount (pyStr c)).data =
        decValue (stripAmount (pyStr c)).data := by
      unfold sciValue
      rw [hdw]
    rw [hsci c hsd, hval]
  · show (numNormD .null).val = 0
    rw [show numNormD .null = ⟨0, 0⟩ from by decide, dec10_val_int]
    norm_num
  · show (numNormD (.str "")).val = 0
    rw [show numNormD (.str "") = ⟨0, 0⟩ from by decide, dec10_val_int]
    norm_num
  · show (numNormD (.str "nan")).val = 0
    rw [show numNormD (.str "nan") = ⟨0, 0⟩ from by decide, dec10_val_int]
    norm_num

/-- Witness for C3: `"1,234.50 kr"` → 1234.50, `"-45"` → −45, `"1e5"` →
100000 through the exponent clause, and a numeric cell passes through. -/
theorem c3_numeric_normalizer_witness :
    cellNN (.str "1,234.50 kr") = decValue (stripAmount (pyStr (.str "1,234.50 kr"))).data ∧
    cellNN (.str "1,234.50 kr") = 1234.5 ∧
    cellNN (.str "-45") = -45 ∧
    cellNN (.str "1e5") = sciValue (stripAmount (pyStr (.str "1e5"))).data ∧
    cellNN (.str "1e5") = 100000 ∧
    cellNN (.num ⟨-45, 0⟩) = Dec10.val ⟨-45, 0⟩ := by
  refine ⟨c3_numeric_normalizer.1 (.str "1,234.50 kr") (by decide), ?_, ?_,
    c3_numeric_normalizer.2.1 (.str "1e5") (by decide), ?_,
    c3_numeric_normalizer.2.2.2.2.2 ⟨-45, 0⟩⟩
  · show (numNormD (.str "1,234.50 kr")).val = 1234.5
    rw [show numNormD (.str "1,234.50 kr") = ⟨123450, 2⟩ from by decide]
    show ((123450 : Int) : ℚ) / (10 : ℚ) ^ 2 = 1234.5
    norm_num
  · show (numNormD (.str "-45")).val = -45
    rw [show numNormD (.str "-45") = ⟨-45, 0⟩ from by decide]
    show ((-45 : Int) : ℚ) / (10 : ℚ) ^ 0 = -45
    norm_num
  · show (numNormD (.str "1e5")).val = 100000
    rw [show numNormD (.str "1e5") = ⟨100000, 0⟩ from by decide]
    show ((100000 : Int) : ℚ) / (10 : ℚ) ^ 0 = 100000
    norm_num

/-- C5 (amended): the categorizer is exactly first-match evaluation of the
ordered rule list (Savings first, with its compound two-token test, default
`"Other"`); and a description containing a grocery keyword and a restaurant
keyword yields `"Groceries 🛒"` **provided it does not also contain both
Savings tokens** (the earlier Savings rule would otherwise win, refuting the
claim's unconditional final clause). -/
theorem c5_categorizer :
    (∀ x : Cell, categorize x = firstMatchLabel catRules (pyLower (pyStr x))) ∧
    (∀ x : Cell,
      anyKw ["meny", "rema", "kiwi", "bunnpris", "coop", "joker", "dagligvare", "extra", "spar"]
        (pyLower (pyStr x)) = true →
      anyKw ["mcd", "burger", "sushi", "pizza", "restaurant", "cafe", "starbucks", "boba", "thai", "vaffel", "bakeri", "espresso", "tea"]
        (pyLower (pyStr x)) = true →
      (containsS (pyLower (pyStr x)) "kontoregulering" &&
        containsS (pyLower (pyStr x)) "mobil overføring") = false →
      categorize x = "Groceries 🛒") := by
  constructor
  · intro x
    unfold categorize firstMatchLabel catRules
    dsimp only
    cases h1 : containsS (pyLower (pyStr x)) "kontoregulering" &&
        containsS (pyLower (pyStr x)) "mobil overføring" <;>
    cases h2 : anyKw ["meny", "rema", "kiwi", "bunnpris", "coop", "joker", "dagligvare", "extra", "spar"]
        (pyLower (pyStr x)) <;>
    cases h3 : anyKw ["mcd", "burger", "sushi", "pizza", "restaurant", "cafe", "starbucks", "boba", "thai", "vaffel", "bakeri", "espresso", "tea"]
        (pyLower (pyStr x)) <;>
    cases h4 : anyKw ["ruter", "vipps:ruter", "vy", "flytoget", "uber", "taxi", "bolt", "parkering", "easypark", "apcoa", "voi", "ryde", "dott", "buss"]
        (pyLower (pyStr x)) <;>
    cases h5 : anyKw ["netflix", "hbo", "spotify", "kino", "steam", "playstation", "bio", "disney"]
        (pyLower (pyStr x)) <;>
    cases h6 : anyKw ["telia", "telenor", "nte", "strøm", "leie", "husleie", "forsikring", "tryg"]
        (pyLower (pyStr x)) <;>
    cases h7 : anyKw ["klarna", "hm", "zara", "elkjøp", "power", "ikea", "clas ohlson", "normal", "apotek", "vitus", "blomster"]
        (pyLower (pyStr x)) <;>
    cases h8 : anyKw ["lønn", "salary", "deposit", "overføring innland", "vipps", "straksoverføring"]
        (pyLower (pyStr x)) <;>
    simp [List.find?, h1, h2, h3, h4, h5, h6, h7, h8]
  · intro x hg hf hs
    unfold categorize
    dsimp only
    rw [hs, hg]
    simp

/-- Witness for C5: `"rema pizza"` matches grocery and restaurant keywords,
no Savings tokens, and is labelled `"Groceries 🛒"`. -/
theorem c5_categorizer_witness :
    categorize (.str "rema pizza") =
      firstMatchLabel catRules (pyLower (pyStr (.str "rema pizza"))) ∧
    categorize (.str "rema pizza") = "Groceries 🛒" :=
  ⟨c5_categorizer.1 (.str "rema pizza"),
   c5_categorizer.2 (.str "rema pizza") (by decide) (by decide) (by decide)⟩

/-! ## Table-operation lemmas -/

theorem getCol_nil (n : String) : getCol n ([] : Table) = none := rfl

theorem getCol_cons (n k : String) (w : List Cell) (t : Table) :
    getCol n ((k, w) :: t) = if k = n then some w else getCol n t := rfl

theorem setCol_nil (n : String) (v : List Cell) : setCol n v ([] : Table) = [(n, v)] := rfl

theorem setCol_cons (n k : String) (v w : List Cell) (t : Table) :
    setCol n v ((k, w) :: t) = if k = n then (n, v) :: t else (k, w) :: setCol n v t := rfl

theorem names_cons (n : String) (v : List Cell) (t : Table) :
    names ((n, v) :: t) = n :: names t := rfl

theorem getCol_mem_names {n : String} {t : Table} {v : List Cell}
    (h : getCol n t = some v) : n ∈ names t := by
  induction t with
  | nil => cases h
  | cons hd tl ih =>
      obtain ⟨m, w⟩ := hd
      rw [getCol_cons] at h
      rw [names_cons]
      by_cases hm : m = n
      · rw [hm]; exact List.mem_cons_self _ _
      · rw [if_neg hm] at h
        exact List.mem_cons_of_mem _ (ih h)

theorem getCol_setCol_self (n : String) (v : List Cell) (t : Table) :
    getCol n (setCol n v t) = some v := by
  induction t with
  | nil => rw [setCol_nil, getCol_cons, if_pos rfl]
  | cons hd tl ih =>
      obtain ⟨m, w⟩ := hd
      rw [setCol_cons]
      by_cases hm : m = n
      · rw [if_pos hm, getCol_cons, if_pos rfl]
      · rw [if_neg hm, getCol_cons, if_neg hm]
        exact ih

theorem getCol_setCol_ne {m n : String} (hne : m ≠ n) (v : List Cell) (t : Table) :
    getCol m (setCol n v t) = getCol m t := by
  induction t with
  | nil =>
      rw [setCol_nil, getCol_cons, if_neg (fun h => hne h.symm)]
  | cons hd tl ih =>
      obtain ⟨k, w⟩ := hd
      rw [setCol_cons]
      by_cases hk : k = n
      · subst hk
        rw [if_pos rfl, getCol_cons, getCol_cons,
          if_neg (fun h => hne h.symm), if_neg (fun h => hne h.symm)]
      · rw [if_neg hk, getCol_cons, getCol_cons]
        by_cases hm : k = m
        · rw [if_pos hm, if_pos hm]
        · rw [if_neg hm, if_neg hm, ih]

theorem mem_names_setCol_self (n : String) (v : List Cell) (t : Table) :
    n ∈ names (setCol n v t) := by
  induction t with
  | nil => rw [setCol_nil, names_cons]; exact List.mem_cons_self _ _
  | cons hd tl ih =>
      obtain ⟨k, w⟩ := hd
      rw [setCol_cons]
      by_cases hk : k = n
      · rw [if_pos hk, names_cons]
        exact List.mem_cons_self _ _
      · rw [if_neg hk, names_cons]
        exact List.mem_cons_of_mem _ ih

theorem mem_names_setCol_of_mem {m : String} (n : String) (v : List Cell) {t : Table}
    (h : m ∈ names t) : m ∈ names (setCol n v t) := by
  induction t with
  | nil => cases h
  | cons hd tl ih =>
      obtain ⟨k, w⟩ := hd
      rw [names_cons] at h
      rw [setCol_cons]
      by_cases hk : k = n
      · rw [if_pos hk, names_cons]
        rcases List.mem_cons.mp h with rfl | h2
        · rw [hk]; exact List.mem_cons_self _ _
        · exact List.mem_cons_of_mem _ h2
      · rw [if_neg hk, names_cons]
        rcases List.mem_cons.mp h with rfl | h2
        · exact List.mem_cons_self _ _
        · exact List.mem_cons_of_mem _ (ih h2)

theorem names_setCol_of_mem {n : String} (v : List Cell) {t : Table} (h : n ∈ names t) :
    names (setCol n v t) = names t := by
  induction t with
  | nil => cases h
  | cons hd tl ih =>
      obtain ⟨k, w⟩ := hd
      rw [names_cons] at h
      rw [setCol_cons]
      by_cases hk : k = n
      · rw [if_pos hk, names_cons, names_cons, hk]
      · rw [if_neg hk, names_cons, names_cons]
        congr 1
        apply ih
        rcases List.mem_cons.mp h with rfl | h2
        · exact absurd rfl hk
        · exact h2

theorem setCol_self_of_getCol {n : String} {t : Table} {v : List Cell}
    (h : getCol n t = some v) : setCol n v t = t := by
  induction t with
  | nil => cases h
  | cons hd tl ih =>
      obtain ⟨k, w⟩ := hd
      rw [getCol_cons] at h
      rw [setCol_cons]
      by_cases hk : k = n
      · rw [if_pos hk]
        rw [if_pos hk] at h
        injection h with h
        rw [← hk, h]
      · rw [if_neg hk]
        rw [if_neg hk] at h
        rw [ih h]

theorem names_rename (m : List (String × String)) (t : Table) :
    names (rename m t) = (names t).map (applyRen m) := by
  unfold names rename
  rw [List.map_map, List.map_map]
  rfl

theorem getCol_rename_fixed {m : List (String × String)} {r : String}
    (h1 : applyRen m r = r) (h2 : ∀ n, applyRen m n = r → n = r) :
    ∀ t : Table, getCol r (rename m t) = getCol r t := by
  intro t
  induction t with
  | nil => rfl
  | cons hd tl ih =>
      obtain ⟨k, w⟩ := hd
      show getCol r ((applyRen m k, w) :: rename m tl) = getCol r ((k, w) :: tl)
      rw [getCol_cons, getCol_cons]
      by_cases hk : applyRen m k = r
      · rw [if_pos hk, if_pos (h2 k hk)]
      · have hkr : k ≠ r := fun hh => hk (by rw [hh, h1])
        rw [if_neg hk, if_neg hkr, ih]

theorem applyRen_cases (m : List (String × String)) (n : String) :
    applyRen m n = n ∨ (applyRen m n) ∈ m.map Prod.snd := by
  unfold applyRen
  cases hf : m.find? (fun p => p.1 == n) with
  | none => left; rfl
  | some p =>
      right
      simp only [Option.map_some', Option.getD_some]
      exact List.mem_map_of_mem _ (List.mem_of_find?_eq_some hf)

theorem applyRen_preimage {m : List (String × String)} {r : String}
    (hr : r ∉ m.map Prod.snd) : ∀ n, applyRen m n = r → n = r := by
  intro n hn
  rcases applyRen_cases m n with he | he
  · rw [← hn, he]
  · rw [hn] at he
    exact absurd he hr

theorem applyRen_self_of_mem {m : List (String × String)} {r : String} {ns : List String}
    (hmem : r ∈ ns.map (applyRen m)) (hr : r ∉ m.map Prod.snd) : applyRen m r = r := by
  rcases List.mem_map.mp hmem with ⟨n0, _, hn0⟩
  have hn0r : n0 = r := applyRen_preimage hr n0 hn0
  rw [hn0r] at hn0
  exact hn0

theorem getCol_rename_untargeted {m : List (String × String)} {r : String} {t : Table}
    (hmem : r ∈ names (rename m t)) (hr : r ∉ m.map Prod.snd) :
    getCol r (rename m t) = getCol r t := by
  rw [names_rename] at hmem
  exact getCol_rename_fixed (applyRen_self_of_mem hmem hr) (applyRen_preimage hr) t

theorem renMap_targets (dc : String) (dsc : Option String) :
    ∀ x ∈ (renMap dc dsc).map Prod.snd, x = "Date" ∨ x = "Description" := by
  cases dsc with
  | none =>
      intro x hx
      simp [renMap] at hx
      exact Or.inl hx
  | some d =>
      by_cases hd : d = dc
      · intro x hx
        simp [renMap, hd] at hx
        exact Or.inr hx
      · intro x hx
        simp [renMap, hd] at hx
        rcases hx with hx | hx
        · exact Or.inl hx
        · exact Or.inr hx

/-! ## Final-pass lemmas -/

theorem cellToDatetime_idem {c c' : Cell} (h : cellToDatetime c = .ok c') :
    cellToDatetime c' = .ok c' := by
  unfold cellToDatetime at h
  split at h
  · injection h with h; rw [← h]; rfl
  · injection h with h; rw [← h]; rfl
  · injection h with h; rw [← h]; rfl
  · split at h
    · injection h with h; rw [← h]; rfl
    · split at h
      · injection h with h; rw [← h]; rfl
      · cases h

theorem toDatetimeCol_idem : ∀ {l l' : List Cell}, toDatetimeCol l = .ok l' →
    toDatetimeCol l' = .ok l' := by
  intro l
  induction l with
  | nil =>
      intro l' h
      injection h with h
      rw [← h]
      rfl
  | cons c cs ih =>
      intro l' h
      rw [toDatetimeCol] at h
      cases hc : cellToDatetime c with
      | error e => rw [hc] at h; cases h
      | ok c' =>
          rw [hc] at h
          cases hcs : toDatetimeCol cs with
          | error e => rw [hcs] at h; simp [bind, Except.bind] at h
          | ok cs' =>
              rw [hcs] at h
              simp only [bind, Except.bind, Except.ok.injEq] at h
              rw [← h, toDatetimeCol, cellToDatetime_idem hc, ih hcs]
              rfl

theorem mem_fillna0_toNumeric (l : List Cell) :
    ∀ c ∈ fillna0 (toNumericCol l), ∃ d, c = .num d := by
  intro c hc
  unfold fillna0 toNumericCol at hc
  rw [List.map_map] at hc
  rcases List.mem_map.mp hc with ⟨c0, _, hc0⟩
  rw [← hc0]
  cases htn : toNumericDec c0 with
  | none => exact ⟨⟨0, 0⟩, by simp [Function.comp, htn]⟩
  | some d => exact ⟨d, by simp [Function.comp, htn]⟩

theorem fillna0_toNumeric_num {l : List Cell} (h : ∀ c ∈ l, ∃ d, c = .num d) :
    fillna0 (toNumericCol l) = l := by
  induction l with
  | nil => rfl
  | cons c cs ih =>
      obtain ⟨d, rfl⟩ := h c (List.mem_cons_self _ _)
      show Cell.num d :: fillna0 (toNumericCol cs) = Cell.num d :: cs
      rw [ih fun c hc => h c (List.mem_cons_of_mem _ hc)]

theorem isObjectCol_num {l : List Cell} (h : ∀ c ∈ l, ∃ d, c = .num d) :
    isObjectCol l = false := by
  unfold isObjectCol
  rw [List.any_eq_false]
  intro c hc
  obtain ⟨d, rfl⟩ := h c hc
  simp

theorem finalPass_ok {t L : Table} (h : finalPass t = .ok L) :
    ∃ dv nd av, getCol "Date" t = some dv ∧ toDatetimeCol dv = .ok nd ∧
      getCol "Amount" (setCol "Date" nd t) = some av ∧
      L = setCol "Amount" (fillna0 (toNumericCol (if isObjectCol av then cleanCol av else av)))
        (setCol "Date" nd t) := by
  unfold finalPass at h
  split at h
  · cases h
  · rename_i dv hdv
    split at h
    · cases h
    · rename_i nd hnd
      dsimp only at h
      split at h
      · cases h
      · rename_i av hav
        injection h with h
        exact ⟨dv, nd, av, hdv, hnd, hav, h.symm⟩

/-- C9: the final normalization pass is idempotent — in fact, applying it to
any of its own successful outputs reproduces that output exactly, so a
second application to an already-canonical ledger changes nothing. -/
theorem c9_final_pass_idempotent (t u : Table) (h : finalPass t = .ok u) :
    finalPass u = .ok u := by
  obtain ⟨dv, nd, av, hdv, hnd, hav, hL⟩ := finalPass_ok h
  have hDateu : getCol "Date" u = some nd := by
    rw [hL, getCol_setCol_ne (by decide), getCol_setCol_self]
  have hAu : getCol "Amount" u =
      some (fillna0 (toNumericCol (if isObjectCol av then cleanCol av else av))) := by
    rw [hL, getCol_setCol_self]
  have hnum : ∀ c ∈ fillna0 (toNumericCol (if isObjectCol av then cleanCol av else av)),
      ∃ d, c = .num d := mem_fillna0_toNumeric _
  have hnd2 : toDatetimeCol nd = .ok nd := toDatetimeCol_idem hnd
  unfold finalPass
  rw [hDateu]
  simp only [hnd2]
  rw [setCol_self_of_getCol hDateu, hAu]
  simp only [isObjectCol_num hnum, Bool.false_eq_true, if_false]
  rw [fillna0_toNumeric_num hnum, setCol_self_of_getCol hAu]

/-- Witness for C9: the canonical ledger obtained from a small table is a
fixed point of the final pass. -/
theorem c9_final_pass_idempotent_witness :
    finalPass tCanon = .ok ledCanon ∧ finalPass ledCanon = .ok ledCanon :=
  ⟨by decide, c9_final_pass_idempotent tCanon ledCanon (by decide)⟩

/-! ## Pipeline-stage inversions -/

theorem applyRen_single_self (c v : String) : applyRen [(c, v)] c = v := by
  simp [applyRen, List.find?]

theorem applyRen_single_ne {k c : String} (h : k ≠ c) (v : String) :
    applyRen [(c, v)] k = k := by
  have hb : (c == k) = false := beq_eq_false_iff_ne.mpr (fun hh => h hh.symm)
  simp [applyRen, List.find?, hb]

theorem pipeline_ok {up loc : Option Table} {L : Table} (h : pipeline up loc = .ok L) :
    ∃ u, loadData up loc = .ok u ∧ finalPass u = .ok L := by
  unfold pipeline at h
  cases hl : loadData up loc with
  | error e =>
      rw [hl] at h
      simp [bind, Except.bind] at h
  | ok u =>
      rw [hl] at h
      exact ⟨u, rfl, by simpa [bind, Except.bind] using h⟩

theorem loadData_some {df : Table} {loc : Option Table} {u : Table}
    (h : loadData (some df) loc = .ok u) : normalizeTable df = .ok u := h

theorem normalizeTable_ok {df u : Table} (h : normalizeTable df = .ok u) :
    catStage (amountStaged df) (catColOf df) = .ok u := by
  unfold normalizeTable at h
  split at h
  · cases h
  · exact h

theorem catStage_ok {t2 : Table} {cc : Option String} {u : Table}
    (h : catStage t2 cc = .ok u) :
    (∃ c, cc = some c ∧ u = rename [(c, "Category")] t2) ∨
    (cc = none ∧ ∃ dv, getCol "Description" t2 = some dv ∧
      u = setCol "Category" (dv.map (fun x => Cell.str (categorize x))) t2) := by
  unfold catStage at h
  split at h
  · rename_i c
    injection h with h
    exact Or.inl ⟨c, rfl, h.symm⟩
  · split at h
    · cases h
    · rename_i dv hdv
      injection h with h
      exact Or.inr ⟨rfl, dv, hdv, h.symm⟩

theorem catColOf_mem {df : Table} {c : String} (h : catColOf df = some c) :
    c ∈ names (amountStaged df) ∧ isCatName c = true := by
  unfold catColOf at h
  exact ⟨List.mem_of_find?_eq_some h, List.find?_some h⟩

/-- C6 (amended): whenever the pipeline completes without raising, the
resulting ledger contains columns named `Date`, `Amount` and `Category`.
(The original "exactly four columns in the order Date, Description, Amount,
Category" fails: unconsumed source columns are retained, the order follows
the source, and the description column can even be consumed by the amount
fallback, so only these three are guaranteed.) -/
theorem c6_canonical_columns (up loc : Option Table) (L : Table)
    (h : pipeline up loc = .ok L) :
    "Date" ∈ names L ∧ "Amount" ∈ names L ∧ "Category" ∈ names L := by
  obtain ⟨u, hu, hfp⟩ := pipeline_ok h
  obtain ⟨dv, nd, av, hdv, hnd, hav, hL⟩ := finalPass_ok hfp
  have hDmem : "Date" ∈ names u := getCol_mem_names hdv
  have hAmem : "Amount" ∈ names u := by
    have := getCol_mem_names hav
    rwa [names_setCol_of_mem _ hDmem] at this
  have hnamesL : names L = names u := by
    rw [hL, names_setCol_of_mem _ (by rwa [names_setCol_of_mem _ hDmem]),
      names_setCol_of_mem _ hDmem]
  have hCmem : "Category" ∈ names u := by
    unfold loadData at hu
    cases hul : up <|> loc with
    | none =>
        rw [hul] at hu
        injection hu with hu
        rw [← hu]
        decide
    | some df =>
        rw [hul] at hu
        rcases catStage_ok (normalizeTable_ok hu) with ⟨c, hc, hrn⟩ | ⟨_, dv2, _, hst⟩
        · obtain ⟨hcmem, _⟩ := catColOf_mem hc
          rw [hrn, names_rename]
          exact List.mem_map.mpr ⟨c, hcmem, applyRen_single_self c "Category"⟩
        · rw [hst]
          exact mem_names_setCol_self _ _ _
  rw [hnamesL]
  exact ⟨hDmem, hAmem, hCmem⟩

/-- Witness for C6: on a concrete table with an extra column, the ledger
contains the three guaranteed canonical columns. -/
theorem c6_canonical_columns_witness :
    namesOf? (pipeline (some tExtraCol) none) =
      some ["Date", "Amount", "Description", "Balance", "Category"] ∧
    "Date" ∈ ["Date", "Amount", "Description", "Balance", "Category"] ∧
    "Amount" ∈ ["Date", "Amount", "Description", "Balance", "Category"] ∧
    "Category" ∈ ["Date", "Amount", "Description", "Balance", "Category"] := by
  have hL : pipeline (some tExtraCol) none = .ok
      [("Date", [.date (.ymd 2023 12 1)]), ("Amount", [.num ⟨5, 0⟩]),
       ("Description", [.str "x"]), ("Balance", [.str "b"]),
       ("Category", [.str "Other"])] := by decide
  have h3 := c6_canonical_columns (some tExtraCol) none _ hL
  refine ⟨by decide, ?_, ?_, ?_⟩
  · exact h3.1
  · exact h3.2.1
  · exact h3.2.2

/-- C7 (amended): in every successfully produced ledger the Amount cells are
all non-null (unparseable and missing amounts collapse to 0), and when the
source table had no surviving category-role column — so the keyword
categorizer generated the labels — the Category cells are all non-null too.
Date and Description cells can be null when their source cells are missing
(see the counterexample), so the claim's blanket non-null invariant had to
be restricted to the amount and generated-category fields. -/
theorem c7_non_null_amount_category (df L : Table)
    (h : pipeline (some df) none = .ok L) :
    (∀ col, getCol "Amount" L = some col → Cell.null ∉ col) ∧
    (catColOf df = none →
      ∀ ccol, getCol "Category" L = some ccol → Cell.null ∉ ccol) := by
  obtain ⟨u, hu, hfp⟩ := pipeline_ok h
  obtain ⟨dv, nd, av, hdv, hnd, hav, hL⟩ := finalPass_ok hfp
  constructor
  · intro col hcol hmem
    rw [hL, getCol_setCol_self] at hcol
    injection hcol with hcol
    rw [← hcol] at hmem
    obtain ⟨d, hd⟩ := mem_fillna0_toNumeric _ _ hmem
    cases hd
  · intro hcat ccol hccol hmem
    have hnorm := normalizeTable_ok (loadData_some hu)
    rcases catStage_ok hnorm with ⟨c, hc, _⟩ | ⟨_, dv2, hdesc, hst⟩
    · rw [hcat] at hc
      cases hc
    · rw [hL, getCol_setCol_ne (by decide), getCol_setCol_ne (by decide), hst,
        getCol_setCol_self] at hccol
      injection hccol with hccol
      rw [← hccol] at hmem
      rcases List.mem_map.mp hmem with ⟨x, _, hx⟩
      cases hx

/-- Witness for C7: on `tNulls` both guarantees hold for the concrete
Amount and Category columns of the resulting ledger. -/
theorem c7_non_null_witness :
    Cell.null ∉ ([.num ⟨5, 0⟩, .num ⟨6, 0⟩] : List Cell) ∧
    Cell.null ∉ ([.str "Other", .str "Other"] : List Cell) := by
  have h := c7_non_null_amount_category tNulls ledNulls (by decide)
  exact ⟨h.1 _ (by decide), h.2 (by decide) _ (by decide)⟩

/-! ## Dual-column netting -/

theorem receiveColOf_spec {df : Table} {r : String} (h : receiveColOf df = some r) :
    isReceiveName r = true ∧ r ∈ names (basicRenamed df) := by
  unfold receiveColOf at h
  exact ⟨List.find?_some h, List.mem_of_find?_eq_some h⟩

theorem amountColOf_spec {df : Table} {a : String} (h : amountColOf df = some a) :
    isAmountName a = true ∧ a ∈ names (basicRenamed df) := by
  unfold amountColOf at h
  exact ⟨List.find?_some h, List.mem_of_find?_eq_some h⟩

theorem receive_amount_ne {r a : String} (hr : isReceiveName r = true)
    (ha : isAmountName a = true) : r ≠ a := by
  intro he
  subst he
  unfold isAmountName at ha
  rw [Bool.or_eq_true, Bool.or_eq_true, Bool.or_eq_true] at ha
  unfold isReceiveName at hr
  rcases ha with ((h1 | h1) | h1) | h1 <;> rw [eq_of_beq h1] at hr <;>
    exact absurd hr (by decide)

theorem basicRenamed_eq (df : Table) :
    basicRenamed df = match dateColOf (names df) with
      | none => df
      | some dc => rename (renMap dc (descColOf (names df))) df := rfl

theorem getCol_basicRenamed {df : Table} {r : String}
    (hmem : r ∈ names (basicRenamed df)) (hD : r ≠ "Date") (hDe : r ≠ "Description") :
    getCol r (basicRenamed df) = getCol r df := by
  rw [basicRenamed_eq] at hmem ⊢
  split at hmem
  · rename_i heq
    rfl
  · rename_i dc heq
    have hnt : r ∉ (renMap dc (descColOf (names df))).map Prod.snd := by
      intro hmem2
      rcases renMap_targets dc (descColOf (names df)) r hmem2 with hh | hh
      · exact hD hh
      · exact hDe hh
    exact getCol_rename_untargeted hmem hnt

theorem nnCol_eq_map (col : List Cell) :
    nnCol col = col.map (fun c => Cell.num (numNormD c)) := by
  unfold nnCol fillna0 toNumericCol cleanCol
  rw [List.map_map, List.map_map]
  apply List.map_congr_left
  intro c _
  show (match (match toNumericDec (cleanCellStr c) with
        | some d => Cell.num d
        | none => Cell.null) with
      | Cell.null => Cell.num ⟨0, 0⟩
      | c => c) = Cell.num (numNormD c)
  unfold numNormD
  cases toNumericDec (cleanCellStr c) with
  | none => rfl
  | some d => rfl

theorem zipWith_num_mem (f : Cell → Cell → Dec10) :
    ∀ (l1 l2 : List Cell) (c : Cell),
      c ∈ List.zipWith (fun x y => Cell.num (f x y)) l1 l2 → ∃ d, c = .num d := by
  intro l1
  induction l1 with
  | nil => intro l2 c hc; simp at hc
  | cons x xs ih =>
      intro l2 c hc
      cases l2 with
      | nil => simp at hc
      | cons y ys =>
          rcases List.mem_cons.mp hc with rfl | hc2
          · exact ⟨f x y, rfl⟩
          · exact ih ys c hc2

theorem amountStaged_dual {df : Table} {r a : String} (hr : receiveColOf df = some r)
    (ha : amountColOf df = some a) (hra : r ≠ a) :
    amountStaged df = setCol "Amount"
      (List.zipWith cellSub (nnCol (getColD r (basicRenamed df)))
        (nnCol (getColD a (basicRenamed df))))
      (setCol a (nnCol (getColD a (basicRenamed df)))
        (setCol r (nnCol (getColD r (basicRenamed df))) (basicRenamed df))) := by
  have h3r : getColD r (setCol a (nnCol (getColD a (basicRenamed df)))
      (setCol r (nnCol (getColD r (basicRenamed df))) (basicRenamed df))) =
      nnCol (getColD r (basicRenamed df)) := by
    unfold getColD
    rw [getCol_setCol_ne hra, getCol_setCol_self, Option.getD_some]
  have h3a : getColD a (setCol a (nnCol (getColD a (basicRenamed df)))
      (setCol r (nnCol (getColD r (basicRenamed df))) (basicRenamed df))) =
      nnCol (getColD a (basicRenamed df)) := by
    unfold getColD
    rw [getCol_setCol_self, Option.getD_some]
  unfold amountStaged
  rw [hr, ha]
  dsimp only
  rw [h3r, h3a]

/-- C2: on the dual-column path (credit and debit roles both inferred), the
ledger's Amount column is, row by row, the Numeric-Normalizer value of the
credit cell minus that of the debit cell (the netting is computed on exact
decimals; the value identity is the second conjunct). -/
theorem c2_dual_netting (df : Table) (r a : String) (L : Table)
    (hr : receiveColOf df = some r) (ha : amountColOf df = some a)
    (hL : pipeline (some df) none = .ok L) :
    getCol "Amount" L = some (List.zipWith
      (fun x y => Cell.num ((numNormD x).sub (numNormD y)))
      (getColD r df) (getColD a df)) ∧
    ∀ x y : Cell, ((numNormD x).sub (numNormD y)).val = cellNN x - cellNN y := by
  obtain ⟨hrn, hrmem⟩ := receiveColOf_spec hr
  obtain ⟨han, hamem⟩ := amountColOf_spec ha
  have hra : r ≠ a := receive_amount_ne hrn han
  have hrD : r ≠ "Date" := fun hh => by rw [hh] at hrn; exact absurd hrn (by decide)
  have hrDe : r ≠ "Description" := fun hh => by rw [hh] at hrn; exact absurd hrn (by decide)
  have haD : a ≠ "Date" := fun hh => by rw [hh] at han; exact absurd han (by decide)
  have haDe : a ≠ "Description" := fun hh => by rw [hh] at han; exact absurd han (by decide)
  have hRcol : getColD r (basicRenamed df) = getColD r df := by
    unfold getColD
    rw [getCol_basicRenamed hrmem hrD hrDe]
  have hAcol : getColD a (basicRenamed df) = getColD a df := by
    unfold getColD
    rw [getCol_basicRenamed hamem haD haDe]
  have hnets : List.zipWith cellSub (nnCol (getColD r (basicRenamed df)))
      (nnCol (getColD a (basicRenamed df))) =
      List.zipWith (fun x y => Cell.num ((numNormD x).sub (numNormD y)))
        (getColD r df) (getColD a df) := by
    rw [hRcol, hAcol, nnCol_eq_map, nnCol_eq_map, List.zipWith_map]
    rfl
  have hstaged : getCol "Amount" (amountStaged df) = some (List.zipWith
      (fun x y => Cell.num ((numNormD x).sub (numNormD y)))
      (getColD r df) (getColD a df)) := by
    rw [amountStaged_dual hr ha hra, getCol_setCol_self, hnets]
  obtain ⟨u, hu, hfp⟩ := pipeline_ok hL
  have hnorm := normalizeTable_ok (loadData_some hu)
  have hAu : getCol "Amount" u = getCol "Amount" (amountStaged df) := by
    rcases catStage_ok hnorm with ⟨c, hc, hrn2⟩ | ⟨_, dv2, _, hst⟩
    · have hcat := (catColOf_mem hc).2
      have hcA : c ≠ "Amount" := fun hh => by rw [hh] at hcat; exact absurd hcat (by decide)
      rw [hrn2]
      exact getCol_rename_fixed (applyRen_single_ne (fun hh => hcA hh.symm) _)
        (applyRen_preimage (by simp)) _
    · rw [hst, getCol_setCol_ne (by decide)]
  obtain ⟨dv, nd, av, hdv, hnd, hav, hLe⟩ := finalPass_ok hfp
  have hav2 : av = List.zipWith (fun x y => Cell.num ((numNormD x).sub (numNormD y)))
      (getColD r df) (getColD a df) := by
    rw [getCol_setCol_ne (by decide), hAu, hstaged] at hav
    injection hav with hav
    exact hav.symm
  have hnum : ∀ c ∈ av, ∃ d, c = .num d := by
    rw [hav2]
    exact fun c hc => zipWith_num_mem _ _ _ c hc
  constructor
  · rw [hLe, getCol_setCol_self]
    rw [isObjectCol_num hnum]
    simp only [Bool.false_eq_true, if_false]
    rw [fillna0_toNumeric_num hnum, hav2]
  · intro x y
    rw [Dec10.sub_val]
    rfl

/-- Witness for C2: credit `"500"`, debit `"120.50"` net to Amount 379.50. -/
theorem c2_dual_netting_witness :
    receiveColOf tDual = some "Receive" ∧ amountColOf tDual = some "Debit" ∧
    pipeline (some tDual) none = .ok ledDual ∧
    getCol "Amount" ledDual = some [Cell.num ⟨37950, 2⟩] ∧
    Dec10.val ⟨37950, 2⟩ = 379.5 ∧
    cellNN (.str "500") - cellNN (.str "120.50") =
      ((numNormD (.str "500")).sub (numNormD (.str "120.50"))).val := by
  refine ⟨by decide, by decide, by decide, ?_, ?_, ?_⟩
  · have h := (c2_dual_netting tDual "Receive" "Debit" ledDual
      (by decide) (by decide) (by decide)).1
    rw [h]
    decide
  · show ((37950 : Int) : ℚ) / (10 : ℚ) ^ 2 = 379.5
    norm_num
  · exact ((c2_dual_netting tDual "Receive" "Debit" ledDual
      (by decide) (by decide) (by decide)).2 (.str "500") (.str "120.50")).symm

/-! ## Verbatim category columns -/

theorem mem_of_mem_names_setCol {m n : String} {v : List Cell} {t : Table}
    (h : m ∈ names (setCol n v t)) (hne : m ≠ n) : m ∈ names t := by
  induction t with
  | nil =>
      rw [setCol_nil, names_cons] at h
      rcases List.mem_cons.mp h with rfl | h2
      · exact absurd rfl hne
      · cases h2
  | cons hd tl ih =>
      obtain ⟨k, w⟩ := hd
      rw [setCol_cons] at h
      rw [names_cons]
      by_cases hk : k = n
      · rw [if_pos hk, names_cons] at h
        rcases List.mem_cons.mp h with rfl | h2
        · exact absurd rfl hne
        · exact List.mem_cons_of_mem _ h2
      · rw [if_neg hk, names_cons] at h
        rcases List.mem_cons.mp h with rfl | h2
        · exact List.mem_cons_self _ _
        · exact List.mem_cons_of_mem _ (ih h2)

theorem mem_of_mem_map_applyRen {m : List (String × String)} {c : String} {ns : List String}
    (hmem : c ∈ ns.map (applyRen m)) (hc : c ∉ m.map Prod.snd) : c ∈ ns := by
  rcases List.mem_map.mp hmem with ⟨n0, hn0mem, hn0⟩
  rw [← applyRen_preimage hc n0 hn0]
  exact hn0mem

theorem getCol_category_rename {t2 : Table} {c : String}
    (hf : (names t2).find? isCatName = some c) :
    getCol "Category" (rename [(c, "Category")] t2) = getCol c t2 := by
  induction t2 with
  | nil => cases hf
  | cons hd tl ih =>
      obtain ⟨k, w⟩ := hd
      rw [names_cons] at hf
      show getCol "Category" ((applyRen [(c, "Category")] k, w) :: rename [(c, "Category")] tl) =
        getCol c ((k, w) :: tl)
      by_cases hk : isCatName k = true
      · rw [List.find?_cons_of_pos _ hk] at hf
        injection hf with hf
        subst hf
        rw [applyRen_single_self, getCol_cons, getCol_cons, if_pos rfl, if_pos rfl]
      · rw [List.find?_cons_of_neg _ hk] at hf
        have hcc : isCatName c = true := List.find?_some hf
        have hkc : k ≠ c := fun hh => hk (by rw [hh]; exact hcc)
        have hkC : k ≠ "Category" := fun hh => hk (by rw [hh]; decide)
        rw [applyRen_single_ne hkc, getCol_cons, getCol_cons, if_neg hkC, if_neg hkc, ih hf]

theorem getCol_amountStaged_catish {df : Table} {c : String}
    (hmem : c ∈ names (amountStaged df)) (hc : isCatName c = true)
    (hdual : ∀ r a, receiveColOf df = some r → amountColOf df = some a → c ≠ r ∧ c ≠ a) :
    getCol c (amountStaged df) = getCol c df := by
  have hcA : c ≠ "Amount" := fun hh => by rw [hh] at hc; exact absurd hc (by decide)
  have hcD : c ≠ "Date" := fun hh => by rw [hh] at hc; exact absurd hc (by decide)
  have hcDe : c ≠ "Description" := fun hh => by rw [hh] at hc; exact absurd hc (by decide)
  have hren : ∀ tgt, c ∈ names (rename [(tgt, "Amount")] (basicRenamed df)) →
      getCol c (rename [(tgt, "Amount")] (basicRenamed df)) = getCol c df := by
    intro tgt hm2
    have hnt : c ∉ ([(tgt, "Amount")]).map Prod.snd := by
      intro hmm2
      simp at hmm2
      exact hcA hmm2
    rw [getCol_rename_untargeted hm2 hnt]
    apply getCol_basicRenamed ?_ hcD hcDe
    rw [names_rename] at hm2
    exact mem_of_mem_map_applyRen hm2 hnt
  cases hrc : receiveColOf df with
  | some r =>
      cases hac : amountColOf df with
      | some a =>
          obtain ⟨hcr, hca⟩ := hdual r a hrc hac
          have hra := receive_amount_ne (receiveColOf_spec hrc).1 (amountColOf_spec hac).1
          rw [amountStaged_dual hrc hac hra] at hmem ⊢
          rw [getCol_setCol_ne hcA, getCol_setCol_ne hca, getCol_setCol_ne hcr]
          apply getCol_basicRenamed ?_ hcD hcDe
          exact mem_of_mem_names_setCol
            (mem_of_mem_names_setCol (mem_of_mem_names_setCol hmem hcA) hca) hcr
      | none =>
          have heq : amountStaged df = (match (names (basicRenamed df))[1]? with
              | some tgt => rename [(tgt, "Amount")] (basicRenamed df)
              | none => basicRenamed df) := by
            unfold amountStaged
            rw [hrc, hac]
          cases hidx : (names (basicRenamed df))[1]? with
          | some tgt =>
              have heq2 : amountStaged df = rename [(tgt, "Amount")] (basicRenamed df) := by
                rw [heq, hidx]
              rw [heq2] at hmem ⊢
              exact hren tgt hmem
          | none =>
              have heq2 : amountStaged df = basicRenamed df := by
                rw [heq, hidx]
              rw [heq2] at hmem ⊢
              exact getCol_basicRenamed hmem hcD hcDe
  | none =>
      cases hac : amountColOf df with
      | some a =>
          have heq2 : amountStaged df = rename [(a, "Amount")] (basicRenamed df) := by
            unfold amountStaged
            rw [hrc, hac]
          rw [heq2] at hmem ⊢
          exact hren a hmem
      | none =>
          have heq : amountStaged df = (match (names (basicRenamed df))[1]? with
              | some tgt => rename [(tgt, "Amount")] (basicRenamed df)
              | none => basicRenamed df) := by
            unfold amountStaged
            rw [hrc, hac]
          cases hidx : (names (basicRenamed df))[1]? with
          | some tgt =>
              have heq2 : amountStaged df = rename [(tgt, "Amount")] (basicRenamed df) := by
                rw [heq, hidx]
              rw [heq2] at hmem ⊢
              exact hren tgt hmem
          | none =>
              have heq2 : amountStaged df = basicRenamed df := by
                rw [heq, hidx]
              rw [heq2] at hmem ⊢
              exact getCol_basicRenamed hmem hcD hcDe

/-- C10 (amended): when a category-role column survives to the point of the
category search — i.e. it was not consumed by the date, description, or
amount-fallback renames, and (on the dual path) is not itself the cleaned
credit or debit column — it is renamed to `Category`, the categorizer is not
invoked, and its cell values appear verbatim in the ledger. -/
theorem c10_category_verbatim (df : Table) (c : String) (L : Table)
    (hc : catColOf df = some c)
    (hdual : ∀ r a, receiveColOf df = some r → amountColOf df = some a → c ≠ r ∧ c ≠ a)
    (hL : pipeline (some df) none = .ok L) :
    getCol "Category" L = getCol c df := by
  obtain ⟨u, hu, hfp⟩ := pipeline_ok hL
  have hnorm := normalizeTable_ok (loadData_some hu)
  rcases catStage_ok hnorm with ⟨c2, hc2, hrn⟩ | ⟨hnone, _, _, _⟩
  · rw [hc] at hc2
    injection hc2 with hc2
    subst hc2
    have hfind : (names (amountStaged df)).find? isCatName = some c := hc
    have hcatu : getCol "Category" u = getCol c (amountStaged df) := by
      rw [hrn]
      exact getCol_category_rename hfind
    have htrans := getCol_amountStaged_catish (catColOf_mem hc).1 (catColOf_mem hc).2 hdual
    obtain ⟨dv, nd, av, hdv, hnd, hav, hLe⟩ := finalPass_ok hfp
    rw [hLe, getCol_setCol_ne (by decide), getCol_setCol_ne (by decide), hcatu, htrans]
  · rw [hc] at hnone
    cases hnone

/-- Witness for C10: a surviving `Category` column passes through verbatim —
even though the description `"rema pizza"` would have been categorized as
groceries, the supplied label `"Whatever"` is kept. -/
theorem c10_category_verbatim_witness :
    catColOf tCatKept = some "Category" ∧
    pipeline (some tCatKept) none = .ok ledCatKept ∧
    getCol "Category" ledCatKept = getCol "Category" tCatKept ∧
    getCol "Category" tCatKept = some [Cell.str "Whatever"] := by
  refine ⟨by decide, by decide, ?_, by decide⟩
  exact c10_category_verbatim tCatKept "Category" ledCatKept (by decide)
    (fun r a hra _ => by
      rw [show receiveColOf tCatKept = none from by decide] at hra
      cases hra)
    (by decide)

/-! ## The role map, computed sequentially -/

theorem applyRen_single (tgt v n : String) :
    applyRen [(tgt, v)] n = if n = tgt then v else n := by
  by_cases h : n = tgt
  · rw [if_pos h, h, applyRen_single_self]
  · rw [if_neg h, applyRen_single_ne h]

theorem names_setCol (n : String) (v : List Cell) (t : Table) :
    names (setCol n v t) = if n ∈ names t then names t else names t ++ [n] := by
  induction t with
  | nil => simp [setCol_nil, names_cons, names]
  | cons hd tl ih =>
      obtain ⟨k, w⟩ := hd
      rw [setCol_cons]
      by_cases hk : k = n
      · rw [if_pos hk, names_cons, names_cons,
          if_pos (by rw [hk]; exact List.mem_cons_self _ _), hk]
      · rw [if_neg hk, names_cons, names_cons, ih]
        by_cases hmem : n ∈ names tl
        · rw [if_pos hmem, if_pos (List.mem_cons_of_mem _ hmem)]
        · rw [if_neg hmem,
            if_neg (fun hh => by
              rcases List.mem_cons.mp hh with hh2 | hh2
              · exact hk hh2.symm
              · exact hmem hh2)]
          rfl

theorem applyRen_renMap (dc : String) (dsc : Option String) (n : String) :
    applyRen (renMap dc dsc) n =
      if dsc = some n then "Description" else if n = dc then "Date" else n := by
  cases dsc with
  | none =>
      rw [show renMap dc none = [(dc, "Date")] from rfl, applyRen_single,
        if_neg (fun h => Option.noConfusion h)]
  | some d =>
      by_cases hddc : d = dc
      · rw [show renMap dc (some d) =
            if d = dc then [(d, "Description")] else [(dc, "Date"), (d, "Description")]
          from rfl, if_pos hddc, applyRen_single]
        by_cases hdn : n = d
        · rw [if_pos hdn, if_pos (by rw [hdn])]
        · rw [if_neg hdn, if_neg (fun h => hdn (Option.some.inj h).symm),
            if_neg (fun h => hdn (h.trans hddc.symm))]
      · rw [show renMap dc (some d) =
            if d = dc then [(d, "Description")] else [(dc, "Date"), (d, "Description")]
          from rfl, if_neg hddc]
        by_cases hndc : n = dc
        · have h1 : (dc == n) = true := beq_iff_eq.mpr hndc.symm
          have hdnn : ¬(d = n) := fun hh => hddc (hh.trans hndc)
          rw [if_neg (fun h => hdnn (Option.some.inj h)), if_pos hndc]
          unfold applyRen
          simp [List.find?_cons, h1]
        · have h1 : (dc == n) = false := beq_eq_false_iff_ne.mpr (fun hh => hndc hh.symm)
          unfold applyRen
          by_cases hdn : n = d
          · have h2 : (d == n) = true := beq_iff_eq.mpr hdn.symm
            rw [if_pos (by rw [hdn])]
            simp [List.find?_cons, h1, h2]
          · have h2 : (d == n) = false := beq_eq_false_iff_ne.mpr (fun hh => hdn hh.symm)
            rw [if_neg (fun h => hdn (Option.some.inj h).symm), if_neg hndc]
            simp [List.find?_cons, h1, h2]

theorem names_basicRenamed (df : Table) :
    names (basicRenamed df) = seqNames1 (names df) := by
  rw [basicRenamed_eq]
  unfold seqNames1
  cases hdc : dateColOf (names df) with
  | none =>
      rw [show ((names df).find? isDateName <|> (names df).head?) = (none : Option String)
        from hdc]
  | some dc =>
      rw [show ((names df).find? isDateName <|> (names df).head?) = some dc from hdc,
        names_rename]
      apply List.map_congr_left
      intro n hn
      rw [applyRen_renMap]
      rfl

theorem names_amountStaged (df : Table) :
    names (amountStaged df) = seqNames2 (names df) := by
  have hn1 : names (basicRenamed df) = seqNames1 (names df) := names_basicRenamed df
  have hrc : (seqNames1 (names df)).find? isReceiveName = receiveColOf df := by
    unfold receiveColOf
    rw [hn1]
  have hac : (seqNames1 (names df)).find? isAmountName = amountColOf df := by
    unfold amountColOf
    rw [hn1]
  unfold seqNames2
  dsimp only
  rw [hrc, hac]
  cases hr : receiveColOf df with
  | some r =>
      cases ha : amountColOf df with
      | some a =>
          obtain ⟨hrn, hrmem⟩ := receiveColOf_spec hr
          obtain ⟨han, hamem⟩ := amountColOf_spec ha
          rw [amountStaged_dual hr ha (receive_amount_ne hrn han), names_setCol,
            names_setCol_of_mem _ (by rwa [names_setCol_of_mem _ hrmem]),
            names_setCol_of_mem _ hrmem, hn1]
      | none =>
          unfold amountStaged
          rw [hr, ha]
          dsimp only
          rw [Option.none_orElse]
          cases htgt : (seqNames1 (names df))[1]? with
          | some tgt =>
              rw [show (names (basicRenamed df))[1]? = some tgt from by rw [hn1]; exact htgt]
              dsimp only
              rw [names_rename, hn1]
              apply List.map_congr_left
              intro n hn
              rw [applyRen_single]
          | none =>
              rw [show (names (basicRenamed df))[1]? = (none : Option String) from by
                rw [hn1]; exact htgt]
              exact hn1
  | none =>
      cases ha : amountColOf df with
      | some a =>
          unfold amountStaged
          rw [hr, ha]
          dsimp only
          rw [Option.some_orElse]
          dsimp only
          rw [names_rename, hn1]
          apply List.map_congr_left
          intro n hn
          rw [applyRen_single]
      | none =>
          unfold amountStaged
          rw [hr, ha]
          dsimp only
          rw [Option.none_orElse]
          cases htgt : (seqNames1 (names df))[1]? with
          | some tgt =>
              rw [show (names (basicRenamed df))[1]? = some tgt from by rw [hn1]; exact htgt]
              dsimp only
              rw [names_rename, hn1]
              apply List.map_congr_left
              intro n hn
              rw [applyRen_single]
          | none =>
              rw [show (names (basicRenamed df))[1]? = (none : Option String) from by
                rw [hn1]; exact htgt]
              exact hn1

/-- C4 (amended): for every raw table, the ColumnRoleMap the code computes
equals the sequential reference definition over the original column names:
date and description are first-match searches over the original names (with
the position-0 / position-2 fallbacks), credit and debit are searched over
the names **after** the date/description rename, and category is searched
over the names after the amount stage. -/
theorem c4_role_map (df : Table) : codeRoleMap df = seqRoleMap (names df) := by
  unfold codeRoleMap seqRoleMap dateColOf descColOf receiveColOf amountColOf catColOf
  rw [names_basicRenamed, names_amountStaged]

end FinDash
